import Mathlib

/-!
Verification development for the `siem` log-loader module
(`source/lambda/es_loader/siem/__init__.py`).

Python strings are embedded as `List Char`, bytes as `List Nat`,
Python dict/JSON values as the inductive `PVal`.  Each definition is a
direct transcription of the corresponding Python function.
-/

namespace Siem

/-- Python strings are modelled as lists of characters. -/
abbrev Str := List Char

/-- Coerce a Lean string literal to the model type. -/
def strOf (s : String) : Str := s.data

/-- Number of bytes of the UTF-8 encoding of one character
(`len(c.encode('utf-8'))`). -/
def charLen (c : Char) : Nat :=
  if c.toNat < 128 then 1
  else if c.toNat < 2048 then 2
  else if c.toNat < 65536 then 3
  else 4

/-- UTF-8 encoding of one character, as bytes. -/
def encChar (c : Char) : List Nat :=
  let n := c.toNat
  if n < 128 then [n]
  else if n < 2048 then [192 + n / 64, 128 + n % 64]
  else if n < 65536 then [224 + n / 4096, 128 + (n / 64) % 64, 128 + n % 64]
  else [240 + n / 262144, 128 + (n / 4096) % 64, 128 + (n / 64) % 64,
        128 + n % 64]

/-- `s.encode('utf-8')` as a byte list. -/
def utf8Bytes (s : Str) : List Nat := s.flatMap encChar

/-- `len(s.encode('utf-8'))`: the UTF-8 byte length of a string. -/
def utf8Len (s : Str) : Nat := (s.map charLen).sum

/-- The file formats recognised by the loader
(`logconfig['file_format']`). -/
inductive FileFormat where
  | text | csv | json | multiline | xml | winevtxml
deriving DecidableEq

/-- The number of leading header lines skipped by
`LogS3.set_start_end_position` (its first `if/elif` chain). -/
def ignore_header_line_number (via_cwl : Bool) (ff : FileFormat)
    (text_header_line_number : Nat) : Nat :=
  if via_cwl then 0
  else match ff with
    | .text => text_header_line_number
    | .csv => 1
    | _ => 0

/-- `LogS3.set_start_end_position`: the `(start, end)` window handed to the
per-format readers.  All numbers are `Nat`, exactly as in the Python
(`start_number` and `end_number` come from the SQS message, `0` when
absent). -/
def set_start_end_position (via_cwl : Bool) (ff : FileFormat)
    (text_header_line_number start_number end_number log_count
     max_log_count : Nat) : Nat × Nat :=
  let h := ignore_header_line_number via_cwl ff text_header_line_number
  if start_number ≤ h then
    (h, if log_count ≤ max_log_count then log_count else max_log_count)
  else
    (start_number - 1, end_number)

/-- `LogS3.split_logs`: partition `log_count` records into 1-based inclusive
ranges of at most `max_log_count`, via `divmod` exactly as the Python does. -/
def split_logs (log_count max_log_count : Nat) : List (Nat × Nat) :=
  let q0 := log_count / max_log_count
  let m := log_count % max_log_count
  let q := if m ≠ 0 then q0 + 1 else q0
  (List.range q).map fun x =>
    let start := if x = 0 then 1 else x * max_log_count + 1
    let e := (x + 1) * max_log_count
    let e := if x = q - 1 ∧ m ≠ 0 then x * max_log_count + m else e
    (start, e)

/-!
### The JSON reader (`LogS3.extract_logobj_from_json`)

The decoded JSON values of the object are modelled per line: each line
decodes to a list of raw events (possibly several per line, Firehose style).
A raw event either contains the configured `json_delimiter` key (and then
carries the list of records under that key) or it does not.
-/

/-- One decoded JSON value: `withKey recs self` when the configured
`json_delimiter` key is present in the object (with `recs` the list under
that key), `noKey self` otherwise. -/
inductive RawEvent (α : Type) where
  | withKey (records : List α) (self : α)
  | noKey (self : α)

/-- The object itself (what `yield raw_event` produces). -/
def RawEvent.self {α : Type} : RawEvent α → α
  | .withKey _ s => s
  | .noKey s => s

/-- The inner loop `for record in raw_event[delimiter]` of
`extract_logobj_from_json`: `count` is incremented per record and the record
is yielded when `start <= count <= end`.  Returns the yielded records and
the final counter. -/
def emit_delim_records {α : Type} (s e : Nat) :
    List α → Nat → List α × Nat
  | [], count => ([], count)
  | r :: rs, count =>
    let c := count + 1
    let rec_out := if s ≤ c ∧ c ≤ e then [r] else []
    let (out, c') := emit_delim_records s e rs c
    (rec_out ++ out, c')

/-- Processing of the successive JSON values decoded from one line by
`extract_logobj_from_json` (the `while index < size` loop). -/
def extract_json_line {α : Type} (delim : Bool) (s e : Nat) :
    List (RawEvent α) → Nat → List α × Nat
  | [], count => ([], count)
  | ev :: rest, count =>
    let (out1, c1) :=
      match delim, ev with
      | true, .withKey recs _ => emit_delim_records s e recs count
      | true, .noKey _ => ([], count)
      | false, ev =>
        let c := count + 1
        ((if s ≤ c ∧ c ≤ e then [ev.self] else []), c)
    let (out2, c2) := extract_json_line delim s e rest c1
    (out1 ++ out2, c2)

/-- `LogS3.extract_logobj_from_json(start, end)`: iterate the lines of the
object (outer `for line in self.rawdata.readlines()`), threading the
1-based record counter, and collect the yielded records. -/
def extract_logobj_from_json {α : Type} (delim : Bool) (s e : Nat)
    (lines : List (List (RawEvent α))) : List α :=
  (lines.foldl
    (fun acc line =>
      let (out, c') := extract_json_line delim s e line acc.2
      (acc.1 ++ out, c'))
    (([] : List α), 0)).1

/-!
### The multiline reader (`LogS3.extract_multiline_log`)
-/

/-- Python whitespace stripped by `str.rstrip()` (the ASCII subset, which is
all this model needs). -/
def isPySpace (c : Char) : Bool :=
  c = ' ' ∨ c = '\t' ∨ c = '\n' ∨ c = '\x0b' ∨ c = '\x0c' ∨ c = '\r'

/-- `"".join(multilog).rstrip()`. -/
def join_rstrip (multilog : List Str) : Str :=
  ((multilog.flatten).reverse.dropWhile isPySpace).reverse

/-- The loop body of `LogS3.extract_multiline_log`: `count` counts lines
matching `multiline_firstline` (`p`), `multilog` accumulates the lines of
the record being built, `is_in_scope` tells whether a record is open. -/
def extract_multiline_go (p : Str → Bool) (s e : Nat) :
    List Str → Nat → List Str → Bool → List Str
  | [], _, multilog, is_in_scope =>
    if is_in_scope then [join_rstrip multilog] else []
  | line :: rest, count, multilog, is_in_scope =>
    if p line then
      let c := count + 1
      if s < c ∧ c ≤ e then
        (if multilog.isEmpty then [] else [join_rstrip multilog]) ++
          extract_multiline_go p s e rest c [line] true
      else
        extract_multiline_go p s e rest c multilog is_in_scope
    else if is_in_scope then
      extract_multiline_go p s e rest count (multilog ++ [line]) is_in_scope
    else
      extract_multiline_go p s e rest count multilog is_in_scope

/-- `LogS3.extract_multiline_log(start, end)` over the lines of the object,
with `p` the compiled `multiline_firstline` regex (abstracted as a
predicate on a line). -/
def extract_multiline_log (p : Str → Bool) (s e : Nat)
    (lines : List Str) : List Str :=
  extract_multiline_go p s e lines 0 [] false

/-- `LogS3.count_multiline_log`: the number of `multiline_firstline`
matches. -/
def count_multiline_log (p : Str → Bool) (lines : List Str) : Nat :=
  (lines.filter p).length

end Siem

namespace Siem

/-!
### Python values

`PVal` models the JSON-like Python values stored in `logdata_dict`:
strings, ints, `None`, lists and dicts (as ordered association lists,
matching Python dict insertion order).
-/

inductive PVal where
  | vstr (s : Str)
  | vint (n : Int)
  | vnull
  | vlist (xs : List PVal)
  | vdict (kvs : List (Str × PVal))

mutual
/-- Python `==` on values. -/
def pbeq : PVal → PVal → Bool
  | .vstr s, .vstr t => s == t
  | .vint m, .vint n => m == n
  | .vnull, .vnull => true
  | .vlist xs, .vlist ys => pbeqList xs ys
  | .vdict a, .vdict b => pbeqKVs a b
  | _, _ => false

/-- Python `==` on lists of values. -/
def pbeqList : List PVal → List PVal → Bool
  | [], [] => true
  | x :: xs, y :: ys => pbeq x y && pbeqList xs ys
  | _, _ => false

/-- Python `==` on dicts (as ordered association lists). -/
def pbeqKVs : List (Str × PVal) → List (Str × PVal) → Bool
  | [], [] => true
  | (k, v) :: xs, (k', v') :: ys => k == k' && pbeq v v' && pbeqKVs xs ys
  | _, _ => false
end

abbrev KVs := List (Str × PVal)

/-- `d[k]` lookup in an association list (first binding wins, as Python
dicts hold each key once). -/
def lookupKV (kvs : KVs) (k : Str) : Option PVal :=
  match kvs with
  | [] => none
  | (k', v) :: rest => if k' = k then some v else lookupKV rest k

/-- `d[k] = v` on an association list: replace the first binding of `k`. -/
def updateKV (kvs : KVs) (k : Str) (v : PVal) : KVs :=
  match kvs with
  | [] => []
  | (k', v') :: rest =>
    if k' = k then (k', v) :: rest else (k', v') :: updateKV rest k v

mutual
/-- Python `str()` of a value (`repr`-style rendering for containers;
string elements inside containers are single-quoted). -/
def pyStr : PVal → Str
  | .vstr s => s
  | .vint n => strOf (toString n)
  | .vnull => strOf "None"
  | .vlist xs => '[' :: pyStrList xs ++ [']']
  | .vdict kvs => '{' :: pyStrKVs kvs ++ ['}']

/-- Python `repr()` of a value (used for container elements). -/
def pyRepr : PVal → Str
  | .vstr s => '\x27' :: s ++ ['\x27']
  | .vint n => strOf (toString n)
  | .vnull => strOf "None"
  | .vlist xs => '[' :: pyStrList xs ++ [']']
  | .vdict kvs => '{' :: pyStrKVs kvs ++ ['}']

/-- Comma-joined `repr`s of list elements. -/
def pyStrList : List PVal → Str
  | [] => []
  | [x] => pyRepr x
  | x :: y :: rest => pyRepr x ++ ',' :: ' ' :: pyStrList (y :: rest)

/-- Comma-joined `'k': repr(v)` renderings of dict items. -/
def pyStrKVs : List (Str × PVal) → Str
  | [] => []
  | [(k, v)] => '\x27' :: k ++ '\x27' :: ':' :: ' ' :: pyRepr v
  | (k, v) :: e :: rest =>
    ('\x27' :: k ++ '\x27' :: ':' :: ' ' :: pyRepr v) ++
      ',' :: ' ' :: pyStrKVs (e :: rest)
end

/-!
### `json.dumps` (default flags: `ensure_ascii=True`,
separators `', '` and `': '`)
-/

/-- Lowercase hex digit. -/
def hexDigit (n : Nat) : Char :=
  if n < 10 then Char.ofNat (48 + n) else Char.ofNat (87 + n)

/-- A `\uXXXX` escape. -/
def uEsc (n : Nat) : Str :=
  ['\\', 'u', hexDigit (n / 4096 % 16), hexDigit (n / 256 % 16),
   hexDigit (n / 16 % 16), hexDigit (n % 16)]

/-- `json.dumps` escaping of one character (`ensure_ascii=True`). -/
def escChar (c : Char) : Str :=
  if c = '"' then ['\\', '"']
  else if c = '\\' then ['\\', '\\']
  else if c = '\n' then ['\\', 'n']
  else if c = '\t' then ['\\', 't']
  else if c = '\r' then ['\\', 'r']
  else if c = '\x08' then ['\\', 'b']
  else if c = '\x0c' then ['\\', 'f']
  else if c.toNat < 32 then uEsc c.toNat
  else if c.toNat < 127 then [c]
  else if c.toNat < 65536 then uEsc c.toNat
  else
    let v := c.toNat - 65536
    uEsc (55296 + v / 1024) ++ uEsc (56320 + v % 1024)

/-- `json.dumps` escaping of a string body. -/
def escStr (s : Str) : Str := s.flatMap escChar

mutual
/-- `json.dumps(v)` as a character list. -/
def dumpsVal : PVal → Str
  | .vstr s => '"' :: escStr s ++ ['"']
  | .vint n => strOf (toString n)
  | .vnull => strOf "null"
  | .vlist xs => '[' :: dumpsList xs ++ [']']
  | .vdict kvs => '{' :: dumpsKVs kvs ++ ['}']

/-- `json.dumps` rendering of list elements, `', '`-separated. -/
def dumpsList : List PVal → Str
  | [] => []
  | [x] => dumpsVal x
  | x :: y :: rest => dumpsVal x ++ ',' :: ' ' :: dumpsList (y :: rest)

/-- `json.dumps` rendering of dict items `"k": v`, `', '`-separated. -/
def dumpsKVs : List (Str × PVal) → Str
  | [] => []
  | [(k, v)] => '"' :: escStr k ++ '"' :: ':' :: ' ' :: dumpsVal v
  | (k, v) :: e :: rest =>
    ('"' :: escStr k ++ '"' :: ':' :: ' ' :: dumpsVal v) ++
      ',' :: ' ' :: dumpsKVs (e :: rest)
end

/-!
### `LogParser.del_none`, `truncate_txt`, `truncate_big_field`,
`LogParser.json`
-/

/-- The string test `value in ('', '-', 'null', '[]')` of `del_none`. -/
def badStr (s : Str) : Bool :=
  decide (s = []) || decide (s = strOf ("-")) ||
    decide (s = strOf ("null")) || decide (s = strOf ("[]"))

/-- `LogParser.del_none`: drop `None` values, empty dicts (after recursing
into them), empty lists, and the strings `''`, `'-'`, `'null'`, `'[]'`. -/
def delNoneKVs : KVs → KVs
  | [] => []
  | (k, .vdict kvs) :: rest =>
    let kvs' := delNoneKVs kvs
    if kvs'.isEmpty then delNoneKVs rest
    else (k, .vdict kvs') :: delNoneKVs rest
  | (k, .vlist xs) :: rest =>
    if xs.isEmpty then delNoneKVs rest else (k, .vlist xs) :: delNoneKVs rest
  | (k, .vstr s) :: rest =>
    if badStr s then delNoneKVs rest else (k, .vstr s) :: delNoneKVs rest
  | (_, .vnull) :: rest => delNoneKVs rest
  | (k, .vint n) :: rest => (k, .vint n) :: delNoneKVs rest

/-- Longest prefix of `txt` whose UTF-8 encoding fits in `num` bytes,
taken greedily character by character. -/
def utf8PrefixTake : Str → Nat → Str
  | [], _ => []
  | c :: cs, num =>
    if charLen c ≤ num then c :: utf8PrefixTake cs (num - charLen c) else []

/-- Whether `txt.encode('utf-8')[:num].decode()` succeeds: the cut at `num`
bytes either covers the whole string or falls on a character boundary. -/
def cutsCleanly (txt : Str) (num : Nat) : Bool :=
  decide (utf8Len txt ≤ num) ||
    decide (utf8Len (utf8PrefixTake txt num) = num)

/-- `LogParser.truncate_txt(txt, num)`:
`txt.encode('utf-8')[:num].decode()`, retrying with `num - 1` while the cut
splits a character (`UnicodeDecodeError`). -/
def truncate_txt (txt : Str) : Nat → Str
  | 0 => utf8PrefixTake txt 0
  | num + 1 =>
    if cutsCleanly txt (num + 1) then utf8PrefixTake txt (num + 1)
    else truncate_txt txt num

/-- `LogParser.truncate_big_field`: recurse into sub-dicts; truncate every
string value with at least 16383 characters and at least 32766 UTF-8 bytes
at 32753 bytes and append `<<TRUNCATED>>`, except under the key
`@message`. -/
def truncate_big_field : KVs → KVs
  | [] => []
  | (k, .vdict kvs) :: rest =>
    (k, .vdict (truncate_big_field kvs)) :: truncate_big_field rest
  | (k, .vstr s) :: rest =>
    if 16383 ≤ s.length ∧ 32766 ≤ utf8Len s then
      if k = strOf ("@message") then (k, .vstr s) :: truncate_big_field rest
      else
        (k, .vstr (truncate_txt s 32753 ++ strOf ("<<TRUNCATED>>"))) ::
          truncate_big_field rest
    else (k, .vstr s) :: truncate_big_field rest
  | (k, v) :: rest => (k, v) :: truncate_big_field rest

/-- The dict actually serialised by the `LogParser.json` property:
`del_none` first, then `truncate_big_field` when the first serialisation
has at least 65536 characters. -/
def emittedKVs (d : KVs) : KVs :=
  let d1 := delNoneKVs d
  if 65536 ≤ (dumpsVal (.vdict d1)).length then truncate_big_field d1 else d1

/-- The `LogParser.json` property: the serialised document. -/
def logparser_json (d : KVs) : Str := dumpsVal (.vdict (emittedKVs d))

/-- All string-valued fields of a dict, descending through sub-dicts
(the same traversal `truncate_big_field` performs). -/
def strFieldsKVs : KVs → List (Str × Str)
  | [] => []
  | (_, .vdict kvs) :: rest => strFieldsKVs kvs ++ strFieldsKVs rest
  | (k, .vstr s) :: rest => (k, s) :: strFieldsKVs rest
  | (_, _) :: rest => strFieldsKVs rest

end Siem

namespace Siem

/-!
### FireLens (`LogS3.extract_firelens_log`)
-/

/-- Python slice `l[s:e]` for non-negative bounds. -/
def pySlice {α : Type} (s e : Nat) (l : List α) : List α :=
  (l.take e).drop s

/-- One outer-parsed FireLens line (the `obj` of
`json.loads(logdata.strip())`): the fields the extractor reads. -/
structure FirelensObj where
  container_id : Option Str
  container_name : Option Str
  source : Option Str
  ecs_cluster : Option Str
  ecs_task_arn : Option Str
  ecs_task_definition : Option Str
  ec2_instance_id : Option Str
  log : Str

/-- The `firelens_meta_dict` built per record. -/
structure FirelensMeta where
  container_id : Option Str
  container_name : Option Str
  container_source : Option Str
  ecs_cluster : Option Str
  ecs_task_arn : Option Str
  ecs_task_definition : Option Str
  ec2_instance_id : Option Str
  is_ignored : Bool
  ignored_reason : Option Str
  skip_normalization : Bool
  error_message : Option Str
deriving DecidableEq

/-- The yielded `logdata`: parsed JSON or the raw string. -/
inductive FlPayload where
  | parsed (v : PVal)
  | raw (s : Str)

/-- The body of the `for logdata in ...` loop of
`LogS3.extract_firelens_log`, for one line.  `tryParse` abstracts
`json.loads` on the inner `log` string (`none` models
`json.decoder.JSONDecodeError`). -/
def extract_firelens_record (ignore_container_stderr ff_json : Bool)
    (tryParse : Str → Option PVal) (obj : FirelensObj) :
    FlPayload × FirelensMeta :=
  let ec2 := match obj.ec2_instance_id with
    | some s => if s.isEmpty then none else some s
    | none => none
  let meta0 : FirelensMeta :=
    { container_id := obj.container_id, container_name := obj.container_name,
      container_source := obj.source, ecs_cluster := obj.ecs_cluster,
      ecs_task_arn := obj.ecs_task_arn,
      ecs_task_definition := obj.ecs_task_definition,
      ec2_instance_id := ec2, is_ignored := false, ignored_reason := none,
      skip_normalization := false, error_message := none }
  let meta1 :=
    if obj.source = some (strOf ("stderr")) then
      if ignore_container_stderr then
        { meta0 with is_ignored := true,
                     ignored_reason := some (strOf ("log is container\x27s stderr")) }
      else
        { meta0 with skip_normalization := true,
                     error_message := some obj.log }
    else meta0
  if ff_json then
    match tryParse obj.log with
    | some v => (.parsed v, meta1)
    | none =>
      (.raw obj.log,
       { meta1 with
           skip_normalization := true,
           error_message :=
             if meta1.error_message.isSome then
               some (strOf ("Invalid file format found during parsing"))
             else meta1.error_message })
  else (.raw obj.log, meta1)

/-- `LogS3.extract_firelens_log(start, end)`: slice the lines to the window
and process each. -/
def extract_firelens_log (ignore_container_stderr ff_json : Bool)
    (tryParse : Str → Option PVal) (s e : Nat) (objs : List FirelensObj) :
    List (FlPayload × FirelensMeta) :=
  (pySlice s e objs).map
    (extract_firelens_record ignore_container_stderr ff_json tryParse)

/-!
### `LogS3.log_count` (with the `deco_cwl_logcount` decorator)
-/

/-- What `log_count` can observe of the S3 object body: the CloudWatch-Logs
envelopes `(messageType == 'DATA_MESSAGE', len(logEvents))` read by the
decorator, and the count the wrapped function's per-format branch would
produce when `end_number == 0`. -/
structure RawContents where
  cwl_envelopes : List (Bool × Nat)
  format_count : Nat

/-- `LogS3.log_count`: the decorator takes over for `via_cwl`; otherwise
the shard range gives the count without a read.  The second component
records whether this computation set `is_ignored` (the
`log_count == 0` rule). -/
def log_count (via_cwl : Bool) (start_number end_number : Nat)
    (raw : RawContents) : Nat × Bool :=
  if via_cwl then
    (((raw.cwl_envelopes.filter (fun p => p.1)).map (fun p => p.2)).sum,
     false)
  else if end_number = 0 then
    (raw.format_count, raw.format_count = 0)
  else
    (end_number - start_number, false)

/-!
### `LogS3.send_meta_to_sqs` and `LogS3.__iter__`
-/

/-- One `Entries` element handed to `sqs_queue.send_messages`. -/
structure SqsEntry where
  id : Str
  message_body : Str
deriving DecidableEq

/-- The `queue_body` JSON for one shard. -/
def queue_body (bucket key : Str) (s e : Nat) : Str :=
  dumpsVal (.vdict
    [(strOf ("siem"), .vdict
        [(strOf ("start_number"), .vint (s : Int)),
         (strOf ("end_number"), .vint (e : Int))]),
     (strOf ("s3"), .vdict
        [(strOf ("bucket"), .vdict [(strOf ("name"), .vstr bucket)]),
         (strOf ("object"), .vdict [(strOf ("key"), .vstr key)])])])

/-- One queue entry `{'Id': f'num_{start}', 'MessageBody': ...}`. -/
def mkSqsEntry (bucket key : Str) (se : Nat × Nat) : SqsEntry :=
  { id := strOf ("num_") ++ strOf (toString se.1),
    message_body := queue_body bucket key se.1 se.2 }

/-- The batching loop of `send_meta_to_sqs`: entries are buffered and
flushed to `send_messages` when the buffer reaches 10 or the metadata is
exhausted.  Returns the list of flushed batches. -/
def send_batches (bucket key : Str) :
    List (Nat × Nat) → List SqsEntry → List (List SqsEntry)
  | [], _ => []
  | se :: rest, entries =>
    let entries' := entries ++ [mkSqsEntry bucket key se]
    if entries'.length = 10 ∨ rest = [] then
      entries' :: send_batches bucket key rest []
    else
      send_batches bucket key rest entries'

/-- `LogS3.send_meta_to_sqs`: the batches submitted and the returned
`last_num`. -/
def send_meta_to_sqs (bucket key : Str) (metadata : List (Nat × Nat)) :
    List (List SqsEntry) × Nat :=
  (send_batches bucket key metadata [], metadata.length)

/-- Result of one `__iter__` invocation: either the object was split
(batches submitted, `is_ignored` set with the recorded reason) or records
were yielded. -/
inductive IterOutcome (α : Type) where
  | split (batches : List (List SqsEntry)) (sent_count : Nat)
      (ignored_reason : Str)
  | yielded (records : List α)
deriving DecidableEq

/-- `LogS3.__iter__`: nothing when ignored; split and stop when
`log_count >= max_log_count` and an SQS queue is configured; otherwise
yield from `logdata_generator` (abstracted as `generated`). -/
def logS3_iter {α : Type} (is_ignored has_queue : Bool)
    (logCount maxLogCount : Nat) (bucket key : Str)
    (generated : List α) : IterOutcome α :=
  if is_ignored then .yielded []
  else if maxLogCount ≤ logCount then
    if has_queue then
      let metadata := split_logs logCount maxLogCount
      let bn := send_meta_to_sqs bucket key metadata
      .split bn.1 bn.2
        (strOf ("Log file was split into ") ++ strOf (toString bn.2) ++
         strOf (" pieces and sent to SQS."))
    else .yielded generated
  else .yielded generated

end Siem

namespace Siem

/-!
### MD5 (`hashlib.md5(...).hexdigest()`)

A direct RFC 1321 implementation over byte lists, 32-bit words as `Nat`
with explicit `% 2^32`.
-/

/-- The 64 MD5 sine constants. -/
def md5K : List Nat :=
  [0xd76aa478, 0xe8c7b756, 0x242070db, 0xc1bdceee,
   0xf57c0faf, 0x4787c62a, 0xa8304613, 0xfd469501,
   0x698098d8, 0x8b44f7af, 0xffff5bb1, 0x895cd7be,
   0x6b901122, 0xfd987193, 0xa679438e, 0x49b40821,
   0xf61e2562, 0xc040b340, 0x265e5a51, 0xe9b6c7aa,
   0xd62f105d, 0x02441453, 0xd8a1e681, 0xe7d3fbc8,
   0x21e1cde6, 0xc33707d6, 0xf4d50d87, 0x455a14ed,
   0xa9e3e905, 0xfcefa3f8, 0x676f02d9, 0x8d2a4c8a,
   0xfffa3942, 0x8771f681, 0x6d9d6122, 0xfde5380c,
   0xa4beea44, 0x4bdecfa9, 0xf6bb4b60, 0xbebfbc70,
   0x289b7ec6, 0xeaa127fa, 0xd4ef3085, 0x04881d05,
   0xd9d4d039, 0xe6db99e5, 0x1fa27cf8, 0xc4ac5665,
   0xf4292244, 0x432aff97, 0xab9423a7, 0xfc93a039,
   0x655b59c3, 0x8f0ccc92, 0xffeff47d, 0x85845dd1,
   0x6fa87e4f, 0xfe2ce6e0, 0xa3014314, 0x4e0811a1,
   0xf7537e82, 0xbd3af235, 0x2ad7d2bb, 0xeb86d391]

/-- The 64 per-round left-rotation amounts. -/
def md5S : List Nat :=
  [7, 12, 17, 22, 7, 12, 17, 22, 7, 12, 17, 22, 7, 12, 17, 22,
   5, 9, 14, 20, 5, 9, 14, 20, 5, 9, 14, 20, 5, 9, 14, 20,
   4, 11, 16, 23, 4, 11, 16, 23, 4, 11, 16, 23, 4, 11, 16, 23,
   6, 10, 15, 21, 6, 10, 15, 21, 6, 10, 15, 21, 6, 10, 15, 21]

/-- 32-bit left rotation. -/
def rotl32 (x s : Nat) : Nat :=
  ((x <<< s) % 4294967296) ||| (x >>> (32 - s))

/-- One MD5 round, on state `(a, b, c, d)` with message words `M`. -/
def md5Step (M : List Nat) (st : Nat × Nat × Nat × Nat) (i : Nat) :
    Nat × Nat × Nat × Nat :=
  let a := st.1
  let b := st.2.1
  let c := st.2.2.1
  let d := st.2.2.2
  let f :=
    if i < 16 then (b &&& c) ||| ((4294967295 - b) &&& d)
    else if i < 32 then (d &&& b) ||| ((4294967295 - d) &&& c)
    else if i < 48 then b ^^^ c ^^^ d
    else c ^^^ (b ||| (4294967295 - d))
  let g :=
    if i < 16 then i
    else if i < 32 then (5 * i + 1) % 16
    else if i < 48 then (3 * i + 5) % 16
    else (7 * i) % 16
  let tmp := (a + f + md5K.getD i 0 + M.getD g 0) % 4294967296
  let nb := (b + rotl32 tmp (md5S.getD i 0)) % 4294967296
  (d, nb, b, c)

/-- Little-endian 32-bit word from four bytes. -/
def leWord (bs : List Nat) (j : Nat) : Nat :=
  bs.getD (4 * j) 0 + 256 * bs.getD (4 * j + 1) 0 +
    65536 * bs.getD (4 * j + 2) 0 + 16777216 * bs.getD (4 * j + 3) 0

/-- Process one 64-byte block. -/
def md5Block (st : Nat × Nat × Nat × Nat) (block : List Nat) :
    Nat × Nat × Nat × Nat :=
  let M := (List.range 16).map (leWord block)
  let r := (List.range 64).foldl (md5Step M) st
  ((st.1 + r.1) % 4294967296,
   (st.2.1 + r.2.1) % 4294967296,
   (st.2.2.1 + r.2.2.1) % 4294967296,
   (st.2.2.2 + r.2.2.2) % 4294967296)

/-- MD5 padding: `0x80`, zeros to 56 mod 64, then the bit length as eight
little-endian bytes. -/
def md5Pad (msg : List Nat) : List Nat :=
  msg ++ [128] ++ List.replicate ((119 - msg.length % 64) % 64) 0 ++
    (List.range 8).map (fun i => (8 * msg.length) / (256 ^ i) % 256)

/-- Split a byte list into 64-byte chunks. -/
def chunks64 : List Nat → List (List Nat)
  | [] => []
  | b :: rest => ((b :: rest).take 64) :: chunks64 ((b :: rest).drop 64)
termination_by l => l.length
decreasing_by simp [List.length_drop]; omega

/-- The MD5 state after hashing `msg`. -/
def md5Words (msg : List Nat) : Nat × Nat × Nat × Nat :=
  (chunks64 (md5Pad msg)).foldl md5Block
    (0x67452301, 0xefcdab89, 0x98badcfe, 0x10325476)

/-- One 32-bit word as eight hex characters, little-endian byte order. -/
def wordHexLE (w : Nat) : Str :=
  [hexDigit (w / 16 % 16), hexDigit (w % 16),
   hexDigit (w / 4096 % 16), hexDigit (w / 256 % 16),
   hexDigit (w / 1048576 % 16), hexDigit (w / 65536 % 16),
   hexDigit (w / 268435456 % 16), hexDigit (w / 16777216 % 16)]

/-- `hashlib.md5(msg).hexdigest()`. -/
def md5hex (msg : List Nat) : Str :=
  let r := md5Words msg
  wordHexLE r.1 ++ wordHexLE r.2.1 ++ wordHexLE r.2.2.1 ++ wordHexLE r.2.2.2

/-!
### `merge` (the in-source deprecated twin of `siem.utils.merge_dicts`)
-/

mutual
/-- `merge(a, b)`: merge dict `b` into dict `a` (Python iterates the keys
of `b` in order). -/
def merge_dicts (a : KVs) : KVs → KVs
  | [] => a
  | (k, bv) :: rest =>
    let a' :=
      match lookupKV a k with
      | some av => updateKV a k (merge_val av bv)
      | none => a ++ [(k, bv)]
    merge_dicts a' rest

/-- The per-key merge: dict+dict recurses; equal values keep `a`;
otherwise (including the `str(a[key]) in str(b[key])` substring case)
`b` wins. -/
def merge_val : PVal → PVal → PVal
  | .vdict akvs, .vdict bkvs => .vdict (merge_dicts akvs bkvs)
  | av, bv =>
    if pbeq av bv then av
    else if decide (pyStr av <:+: pyStr bv) then bv
    else bv
end

/-!
### Dotted-key lookup (in-source deprecated twin `get_value_from_dict`,
single-key form, as used via `utils.value_from_nesteddict_by_dottedkey`)
-/

/-- Python truthiness of a value. -/
def truthy : PVal → Bool
  | .vstr s => !s.isEmpty
  | .vint n => n ≠ 0
  | .vnull => false
  | .vlist xs => !xs.isEmpty
  | .vdict kvs => !kvs.isEmpty

/-- `int(k)` for a non-negative decimal key component, `none` when
`int()` raises. -/
def pyNat? (s : Str) : Option Nat :=
  if s ≠ [] ∧ s.all (fun c => c.isDigit) then
    some (s.foldl (fun acc c => acc * 10 + (c.toNat - 48)) 0)
  else none

/-- The descent `v = v[k]` over the components of one dotted key. -/
def dotted_descend : List Str → PVal → Option PVal
  | [], v => some v
  | k :: rest, .vdict kvs =>
    match lookupKV kvs k with
    | some v => dotted_descend rest v
    | none => none
  | k :: rest, .vlist xs =>
    match pyNat? k with
    | some i =>
      match xs.get? i with
      | some v => dotted_descend rest v
      | none => none
    | none => none
  | _ :: _, _ => none

/-- `value_from_nesteddict_by_dottedkey(dct, key)`: descend by the dotted
key; a failure or a falsy result yields nothing. -/
def value_from_nesteddict_by_dottedkey (d : KVs) (key : Str) : Option PVal :=
  match dotted_descend (key.splitOn '.') (.vdict d) with
  | some v => if truthy v then some v else none
  | none => none

/-!
### `LogParser.add_basic_field` (the `@id`/`@message` part) and
`LogParser.doc_id`
-/

/-- `basic_dict['@message']`: `json.dumps(logdata)` for the `json` format,
`str(logdata)` otherwise. -/
def at_message (ff_json : Bool) (logdata : PVal) : Str :=
  if ff_json then dumpsVal logdata else pyStr logdata

/-- The `@id` computed by `add_basic_field`: MD5 of `@message + s3key`
when normalization was skipped; the raw value of the configured `doc_id`
field when that config is set (a missing field raises `KeyError`,
modelled as `none`); MD5 of `@message` otherwise. -/
def add_basic_field_id (skip : Bool) (doc_id_cfg : Str)
    (logdata_dict : KVs) (message s3key : Str) : Option PVal :=
  if skip then some (.vstr (md5hex (utf8Bytes (message ++ s3key))))
  else if doc_id_cfg ≠ [] then lookupKV logdata_dict doc_id_cfg
  else some (.vstr (md5hex (utf8Bytes message)))

/-- `basic_dict` as built by `add_basic_field` (the fields relevant to the
id computation; `event` holds `module` and then `ingested`). -/
def mk_basic_dict (message logtype timestamp_iso ingested_iso : Str)
    (idv : PVal) (loggroup logstream : Option Str)
    (s3bucket s3key : Str) : KVs :=
  [(strOf ("@message"), .vstr message),
   (strOf ("event"), .vdict
      [(strOf ("module"), .vstr logtype),
       (strOf ("ingested"), .vstr ingested_iso)]),
   (strOf ("@timestamp"), .vstr timestamp_iso),
   (strOf ("@log_type"), .vstr logtype),
   (strOf ("@id"), idv)] ++
  (match loggroup with
   | some g =>
     [(strOf ("@log_group"), .vstr g),
      (strOf ("@log_stream"),
       match logstream with | some s => .vstr s | none => .vnull)]
   | none => []) ++
  [(strOf ("@log_s3bucket"), .vstr s3bucket),
   (strOf ("@log_s3key"), .vstr s3key)]

/-- The `LogParser.doc_id` property over the merged record dict. -/
def logparser_doc_id (d : KVs) (doc_id_suffix_cfg : Str) : Option PVal :=
  match lookupKV d (strOf ("__doc_id_suffix")) with
  | some suffix =>
    match lookupKV d (strOf ("@id")) with
    | some idv => some (.vstr (pyStr idv ++ '_' :: pyStr suffix))
    | none => none
  | none =>
    if doc_id_suffix_cfg ≠ [] then
      match value_from_nesteddict_by_dottedkey d doc_id_suffix_cfg with
      | some suffix =>
        match lookupKV d (strOf ("@id")) with
        | some idv => some (.vstr (pyStr idv ++ '_' :: pyStr suffix))
        | none => none
      | none => lookupKV d (strOf ("@id"))
    else lookupKV d (strOf ("@id"))

/-- The id-relevant slice of one `LogParser.__call__` run: build
`@message`, resolve `@timestamp` (the parsed record timestamp when
`timestamp_key` is configured and normalization not skipped, the current
clock otherwise), compute `@id`, merge `basic_dict` into the record dict,
and read the `doc_id` property.  `now_iso` is the run's wall clock
(`datetime.now(timezone.utc).isoformat()`). -/
def doc_id_of_run (logdata_dict : KVs) (ff_json skip : Bool)
    (logdata : PVal) (doc_id_cfg doc_id_suffix_cfg logtype : Str)
    (ts_key_set : Bool) (ts_parsed : Str) (now_iso : Str)
    (loggroup logstream : Option Str) (s3bucket s3key : Str) :
    Option PVal :=
  let message := at_message ff_json logdata
  let timestamp := if ts_key_set ∧ ¬skip then ts_parsed else now_iso
  match add_basic_field_id skip doc_id_cfg logdata_dict message s3key with
  | none => none
  | some idv =>
    let d := merge_dicts logdata_dict
      (mk_basic_dict message logtype timestamp now_iso idv
        loggroup logstream s3bucket s3key)
    logparser_doc_id d doc_id_suffix_cfg

/-!
### Exclusion patterns (`match_log_with_exclude_patterns`)
-/

/-- A nested pattern: a compiled regex at the leaves (abstracted as a
match-at-start predicate on strings), or a nested map. -/
inductive ExPat where
  | leaf (m : Str → Bool)
  | node (kvs : List (Str × ExPat))

/-- `match_log_with_exclude_patterns(log_dict, log_patterns)`, transcribed
branch by branch: a key present on both sides with dict pattern and dict
value returns the recursive result immediately; a leaf pattern skips list
values and returns `True` on a match; everything else moves to the next
pattern; the fall-through returns Python `None` (modelled `false`). -/
def match_log_with_exclude_patterns (log : KVs) :
    List (Str × ExPat) → Bool
  | [] => false
  | (k, pat) :: rest =>
    match lookupKV log k with
    | none => match_log_with_exclude_patterns log rest
    | some v =>
      match pat, v with
      | .node ps, .vdict ld => match_log_with_exclude_patterns ld ps
      | .leaf _, .vlist _ => match_log_with_exclude_patterns log rest
      | .leaf m, v =>
        if m (pyStr v) then true
        else match_log_with_exclude_patterns log rest
      | .node _, _ => match_log_with_exclude_patterns log rest

/-- The property "some leaf regex of the pattern map, reached by
descending through keys also present in the record, matches the string
form of the corresponding (non-list) value": a leaf match at the top
level, or a match deeper inside parallel nested dicts. -/
inductive LeafMatches : KVs → List (Str × ExPat) → Prop where
  | here {log pats k m v} :
      (k, ExPat.leaf m) ∈ pats → lookupKV log k = some v →
      (∀ xs, v ≠ .vlist xs) → m (pyStr v) = true → LeafMatches log pats
  | deeper {log pats k ps ld} :
      (k, ExPat.node ps) ∈ pats → lookupKV log k = some (.vdict ld) →
      LeafMatches ld ps → LeafMatches log pats

end Siem

namespace Siem

/-!
## Theorems

### Helper lemmas for `split_logs` (claim C2)
-/

theorem ceil_div_eq (n m : Nat) (hm : 0 < m) :
    (if n % m ≠ 0 then n / m + 1 else n / m) = (n + m - 1) / m := by
  have h1 := Nat.div_add_mod n m
  have hr : n % m < m := Nat.mod_lt n hm
  by_cases h : n % m = 0
  · simp only [h, ne_eq, not_true_eq_false, if_false]
    have he : n + m - 1 = (m - 1) + m * (n / m) := by
      generalize hM : m * (n / m) = M at h1 ⊢
      omega
    have hlt : m - 1 < m := by omega
    rw [he, Nat.add_mul_div_left _ _ hm, Nat.div_eq_of_lt hlt]
    omega
  · simp only [h, ne_eq, not_false_eq_true, if_true]
    have he : n + m - 1 = (n % m - 1) + m * (n / m + 1) := by
      rw [Nat.mul_succ]
      generalize hM : m * (n / m) = M at h1 ⊢
      omega
    have hlt : n % m - 1 < m := by omega
    rw [he, Nat.add_mul_div_left _ _ hm, Nat.div_eq_of_lt hlt]
    omega

theorem split_logs_closed (n m : Nat) (hm : 0 < m) :
    split_logs n m =
      (List.range ((n + m - 1) / m)).map
        (fun x => (x * m + 1, min ((x + 1) * m) n)) := by
  unfold split_logs
  rw [← ceil_div_eq n m hm]
  apply List.map_congr_left
  intro x hx
  rw [List.mem_range] at hx
  simp only [Prod.mk.injEq]
  have h1 := Nat.div_add_mod n m
  have hr : n % m < m := Nat.mod_lt n hm
  have hstart : (if x = 0 then 1 else x * m + 1) = x * m + 1 := by
    by_cases h0 : x = 0
    · subst h0; simp
    · rw [if_neg h0]
  by_cases h : n % m = 0
  · simp only [h, ne_eq, not_true_eq_false, if_false, and_false] at hx ⊢
    have hle : (x + 1) * m ≤ m * (n / m) := by
      calc (x + 1) * m ≤ (n / m) * m := Nat.mul_le_mul_right m hx
        _ = m * (n / m) := Nat.mul_comm _ m
    refine ⟨hstart, ?_⟩
    generalize hM : m * (n / m) = M at h1 hle
    generalize hX : (x + 1) * m = X at hle ⊢
    omega
  · simp only [h, ne_eq, not_false_eq_true, if_true, and_true] at hx ⊢
    refine ⟨hstart, ?_⟩
    by_cases hlast : x = n / m
    · subst hlast
      have hcond : n / m = n / m + 1 - 1 := (Nat.add_sub_cancel (n / m) 1).symm
      rw [if_pos hcond, Nat.mul_comm (n / m) m]
      have hms : (n / m + 1) * m = m * (n / m) + m := by
        rw [Nat.succ_mul, Nat.mul_comm]
      generalize hM : m * (n / m) = M at h1 hms ⊢
      generalize hX : (n / m + 1) * m = X at hms ⊢
      omega
    · have hxlt : x < n / m := by omega
      have hcond : ¬(x = n / m + 1 - 1) := by
        rw [Nat.add_sub_cancel]; omega
      rw [if_neg hcond]
      have hle : (x + 1) * m ≤ m * (n / m) := by
        calc (x + 1) * m ≤ (n / m) * m := Nat.mul_le_mul_right m hxlt
          _ = m * (n / m) := Nat.mul_comm _ m
      generalize hM : m * (n / m) = M at h1 hle
      generalize hX : (x + 1) * m = X at hle ⊢
      omega

theorem chunk_flatten (Q m : Nat) :
    ((List.range Q).map (fun x => List.range' (x * m + 1) m)).flatten =
      List.range' 1 (Q * m) := by
  induction Q with
  | zero => simp
  | succ q ih =>
    rw [List.range_succ, List.map_append, List.flatten_append, ih]
    simp only [List.map_cons, List.map_nil, List.flatten_cons,
      List.flatten_nil, List.append_nil]
    have h := List.range'_append 1 (q * m) m 1
    simp only [Nat.one_mul] at h
    rw [Nat.add_comm 1 (q * m)] at h
    rw [h, Nat.succ_mul, Nat.add_comm m (q * m)]

theorem split_logs_length (n m : Nat) (hm : 0 < m) :
    (split_logs n m).length = (n + m - 1) / m := by
  rw [split_logs_closed n m hm]
  simp

theorem split_logs_get (n m : Nat) (hm : 0 < m) (i : Nat)
    (h : i < (split_logs n m).length) :
    (split_logs n m).get ⟨i, h⟩ = (i * m + 1, min ((i + 1) * m) n) := by
  rw [List.get_eq_getElem, List.getElem_of_eq (split_logs_closed n m hm) h,
    List.getElem_map, List.getElem_range]

theorem split_logs_flatten (n m : Nat) (hn : 0 < n) (hm : 0 < m) :
    ((split_logs n m).map
        (fun p => List.range' p.1 (p.2 + 1 - p.1))).flatten =
      List.range' 1 n := by
  rw [split_logs_closed n m hm, List.map_map]
  have hQ : (n + m - 1) / m = (n - 1) / m + 1 := by
    have he : n + m - 1 = (n - 1) + m := by omega
    rw [he, Nat.add_div_right _ hm]
  rw [hQ, List.range_succ, List.map_append, List.flatten_append]
  have hd := Nat.div_add_mod (n - 1) m
  have hmod : (n - 1) % m < m := Nat.mod_lt _ hm
  have hcm : (n - 1) / m * m = m * ((n - 1) / m) := Nat.mul_comm _ m
  have hsm : ((n - 1) / m + 1) * m = (n - 1) / m * m + m :=
    Nat.succ_mul _ m
  have hle : (n - 1) / m * m ≤ n - 1 := by
    rw [hcm]
    generalize hA : m * ((n - 1) / m) = A at hd
    omega
  have hub : n ≤ ((n - 1) / m + 1) * m := by
    rw [hsm, hcm]
    generalize hA : m * ((n - 1) / m) = A at hd
    omega
  have hprefix : ∀ x ∈ List.range ((n - 1) / m),
      ((fun p => List.range' p.1 (p.2 + 1 - p.1)) ∘
        fun x => (x * m + 1, min ((x + 1) * m) n)) x =
      List.range' (x * m + 1) m := by
    intro x hx
    rw [List.mem_range] at hx
    simp only [Function.comp_apply]
    have h1 : (x + 1) * m ≤ (n - 1) / m * m :=
      Nat.mul_le_mul_right m hx
    have h3 : (x + 1) * m = x * m + m := Nat.succ_mul x m
    have hminx : min ((x + 1) * m) n = (x + 1) * m := by
      apply Nat.min_eq_left
      omega
    rw [hminx, h3]
    congr 1
    omega
  rw [List.map_congr_left hprefix, chunk_flatten]
  simp only [List.map_cons, List.map_nil, Function.comp_apply,
    List.flatten_cons, List.flatten_nil, List.append_nil]
  have hminl : min (((n - 1) / m + 1) * m) n = n := Nat.min_eq_right hub
  rw [hminl]
  have hsz : n + 1 - ((n - 1) / m * m + 1) = n - (n - 1) / m * m := by
    omega
  rw [hsz]
  have h := List.range'_append 1 ((n - 1) / m * m) (n - (n - 1) / m * m) 1
  simp only [Nat.one_mul] at h
  rw [Nat.add_comm 1 ((n - 1) / m * m)] at h
  rw [h]
  congr 1
  omega

theorem split_logs_size_le (n m : Nat) (hm : 0 < m) (i : Nat)
    (h : i < (split_logs n m).length) :
    ((split_logs n m).get ⟨i, h⟩).2 + 1 - ((split_logs n m).get ⟨i, h⟩).1
      ≤ m := by
  rw [split_logs_get n m hm i h]
  have h3 : (i + 1) * m = i * m + m := Nat.succ_mul i m
  rcases Nat.le_total ((i + 1) * m) n with hc | hc
  · rw [Nat.min_eq_left hc]
    omega
  · rw [Nat.min_eq_right hc]
    omega

theorem split_logs_size_eq (n m : Nat) (hm : 0 < m) (i : Nat)
    (h : i < (split_logs n m).length)
    (hnl : i + 1 < (split_logs n m).length) :
    ((split_logs n m).get ⟨i, h⟩).2 + 1 - ((split_logs n m).get ⟨i, h⟩).1
      = m := by
  rw [split_logs_get n m hm i h]
  rw [split_logs_length n m hm] at hnl
  have hn : 0 < n := by
    by_contra hc
    have : n = 0 := by omega
    subst this
    rw [Nat.div_eq_of_lt (by omega)] at hnl
    omega
  have hQ : (n + m - 1) / m = (n - 1) / m + 1 := by
    have he : n + m - 1 = (n - 1) + m := by omega
    rw [he, Nat.add_div_right _ hm]
  rw [hQ] at hnl
  have hile : i + 1 ≤ (n - 1) / m := by omega
  have h1 : (i + 1) * m ≤ (n - 1) / m * m := Nat.mul_le_mul_right m hile
  have hd := Nat.div_add_mod (n - 1) m
  have hcm : (n - 1) / m * m = m * ((n - 1) / m) := Nat.mul_comm _ m
  have hle : (n - 1) / m * m ≤ n - 1 := by
    rw [hcm]
    generalize hA : m * ((n - 1) / m) = A at hd
    omega
  have hminx : min ((i + 1) * m) n = (i + 1) * m := by
    apply Nat.min_eq_left
    omega
  rw [hminx, Nat.succ_mul i m]
  omega

theorem split_logs_pairwise (n m : Nat) (hn : 0 < n) (hm : 0 < m) :
    ((split_logs n m).map
        (fun p => List.range' p.1 (p.2 + 1 - p.1))).Pairwise
      List.Disjoint := by
  have hflat := split_logs_flatten n m hn hm
  have hnd : (((split_logs n m).map
      (fun p => List.range' p.1 (p.2 + 1 - p.1))).flatten).Nodup := by
    rw [hflat]
    exact List.nodup_range' 1 n
  exact ((List.nodup_flatten).mp hnd).2

/-- Claim C2: for every `log_count >= 1` and `max_log_count >= 1`,
`split_logs` returns exactly `ceil(log_count / max_log_count)` inclusive
1-based ranges; laid end to end they are exactly `[1..log_count]`
(contiguity and union), they are pairwise disjoint, every range has size at
most `max_log_count`, and every range but the last has size exactly
`max_log_count`. -/
theorem claim_C2_split_logs (log_count max_log_count : Nat)
    (hn : 1 ≤ log_count) (hm : 1 ≤ max_log_count) :
    (split_logs log_count max_log_count).length =
      (log_count + max_log_count - 1) / max_log_count ∧
    ((split_logs log_count max_log_count).map
        (fun p => List.range' p.1 (p.2 + 1 - p.1))).flatten =
      List.range' 1 log_count ∧
    ((split_logs log_count max_log_count).map
        (fun p => List.range' p.1 (p.2 + 1 - p.1))).Pairwise
      List.Disjoint ∧
    (∀ i (h : i < (split_logs log_count max_log_count).length),
      ((split_logs log_count max_log_count).get ⟨i, h⟩).2 + 1 -
        ((split_logs log_count max_log_count).get ⟨i, h⟩).1 ≤
        max_log_count) ∧
    (∀ i (h : i < (split_logs log_count max_log_count).length),
      i + 1 < (split_logs log_count max_log_count).length →
      ((split_logs log_count max_log_count).get ⟨i, h⟩).2 + 1 -
        ((split_logs log_count max_log_count).get ⟨i, h⟩).1 =
        max_log_count) :=
  ⟨split_logs_length log_count max_log_count hm,
   split_logs_flatten log_count max_log_count hn hm,
   split_logs_pairwise log_count max_log_count hn hm,
   fun i h => split_logs_size_le log_count max_log_count hm i h,
   fun i h hl => split_logs_size_eq log_count max_log_count hm i h hl⟩

/-- Witness for C2 at the concrete shard scenario `log_count = 25`,
`max_log_count = 10` (three shards `(1,10) (11,20) (21,25)`). -/
theorem claim_C2_split_logs_witness :
    (split_logs 25 10).length = (25 + 10 - 1) / 10 ∧
    ((split_logs 25 10).map
        (fun p => List.range' p.1 (p.2 + 1 - p.1))).flatten =
      List.range' 1 25 :=
  ⟨(claim_C2_split_logs 25 10 (by decide) (by decide)).1,
   (claim_C2_split_logs 25 10 (by decide) (by decide)).2.1⟩

end Siem

namespace Siem

/-!
### Helper lemmas for the SQS batching (claim C3)
-/

theorem send_batches_flatten (bucket key : Str) :
    ∀ (md : List (Nat × Nat)) (entries : List SqsEntry), md ≠ [] →
      entries.length ≤ 9 →
      (send_batches bucket key md entries).flatten =
        entries ++ md.map (mkSqsEntry bucket key) := by
  intro md
  induction md with
  | nil => intro entries h; exact absurd rfl h
  | cons x rest ih =>
    intro entries _ hlen
    rw [send_batches]
    by_cases hr : rest = []
    · subst hr
      rw [if_pos (Or.inr rfl)]
      simp [send_batches]
    · by_cases h10 : (entries ++ [mkSqsEntry bucket key x]).length = 10
      · rw [if_pos (Or.inl h10)]
        simp only [List.flatten_cons]
        rw [ih [] hr (by simp)]
        simp
      · rw [if_neg (by tauto)]
        rw [ih (entries ++ [mkSqsEntry bucket key x]) hr
          (by simp at h10 ⊢; omega)]
        simp

theorem send_batches_le10 (bucket key : Str) :
    ∀ (md : List (Nat × Nat)) (entries : List SqsEntry),
      entries.length ≤ 9 →
      ∀ b ∈ send_batches bucket key md entries, b.length ≤ 10 := by
  intro md
  induction md with
  | nil => intro entries _ b hb; simp [send_batches] at hb
  | cons x rest ih =>
    intro entries hlen b hb
    rw [send_batches] at hb
    by_cases hc : (entries ++ [mkSqsEntry bucket key x]).length = 10 ∨
        rest = []
    · rw [if_pos hc] at hb
      rcases List.mem_cons.mp hb with h | h
      · subst h; simp at hlen ⊢; omega
      · exact ih [] (by simp) b h
    · rw [if_neg hc] at hb
      push_neg at hc
      exact ih _ (by simp at hc ⊢; omega) b hb

/-- Claim C3 (amended): iterating a non-ignored `LogS3` splits the object
exactly when `log_count >= max_log_count` (not strictly greater) AND an SQS
queue is configured; the shard descriptors are submitted in order in
batches of at most 10 entries, and the recorded reason is
`'Log file was split into N pieces and sent to SQS.'` with `N` the number
of shards; otherwise the windowed records are yielded and nothing is
submitted. -/
theorem claim_C3_shard_trigger {α : Type} (hq : Bool)
    (lc mlc : Nat) (bucket key : Str) (gen : List α) (hmlc : 1 ≤ mlc) :
    (mlc ≤ lc → hq = true →
      logS3_iter false hq lc mlc bucket key gen =
        IterOutcome.split
          (send_batches bucket key (split_logs lc mlc) [])
          (split_logs lc mlc).length
          (strOf ("Log file was split into ") ++
            strOf (toString (split_logs lc mlc).length) ++
            strOf (" pieces and sent to SQS.")) ∧
      (send_batches bucket key (split_logs lc mlc) []).flatten =
        (split_logs lc mlc).map (mkSqsEntry bucket key) ∧
      (∀ b ∈ send_batches bucket key (split_logs lc mlc) [],
        b.length ≤ 10)) ∧
    (mlc ≤ lc → hq = false →
      logS3_iter false hq lc mlc bucket key gen =
        IterOutcome.yielded gen) ∧
    (lc < mlc →
      logS3_iter false hq lc mlc bucket key gen =
        IterOutcome.yielded gen) := by
  refine ⟨?_, ?_, ?_⟩
  · intro hle hqt
    subst hqt
    have hne : split_logs lc mlc ≠ [] := by
      have hpos : 0 < (split_logs lc mlc).length := by
        rw [split_logs_length lc mlc hmlc]
        exact Nat.div_pos (by omega) hmlc
      exact List.ne_nil_of_length_pos hpos
    refine ⟨?_, send_batches_flatten bucket key _ [] hne (by simp),
      send_batches_le10 bucket key _ [] (by simp)⟩
    simp only [logS3_iter, if_neg Bool.false_ne_true, if_pos hle,
      send_meta_to_sqs]
    simp [hle]
  · intro hle hqf
    subst hqf
    simp [logS3_iter, hle]
  · intro hlt
    have : ¬(mlc ≤ lc) := by omega
    simp [logS3_iter, this]

/-- Witness for the amended C3 at `log_count = max_log_count = 5` with a
queue configured. -/
theorem claim_C3_shard_trigger_witness :
    logS3_iter false true 5 5 (strOf ("b")) (strOf ("k")) [(0 : Nat)] =
      IterOutcome.split
        (send_batches (strOf ("b")) (strOf ("k")) (split_logs 5 5) [])
        (split_logs 5 5).length
        (strOf ("Log file was split into ") ++
          strOf (toString (split_logs 5 5).length) ++
          strOf (" pieces and sent to SQS.")) :=
  (((claim_C3_shard_trigger true 5 5 (strOf ("b")) (strOf ("k"))
      [(0 : Nat)] (by decide)).1 (by decide) rfl).1)

/-- Counterexample to C3 as stated: at `log_count = max_log_count = 5`
(so `log_count <= max_log_count`, where the claim requires the invocation
to yield its records and submit nothing), the code splits the object,
submits one batch with one shard descriptor, and stops yielding. -/
theorem claim_C3_counterexample :
    logS3_iter false true 5 5 (strOf ("b")) (strOf ("k")) [(0 : Nat)] =
      IterOutcome.split
        [[mkSqsEntry (strOf ("b")) (strOf ("k")) (1, 5)]] 1
        (strOf ("Log file was split into 1 pieces and sent to SQS.")) ∧
    logS3_iter false true 5 5 (strOf ("b")) (strOf ("k")) [(0 : Nat)] ≠
      IterOutcome.yielded [(0 : Nat)] := by
  refine ⟨by decide, by decide⟩

end Siem

namespace Siem

/-- Claim C1 (code divergence, json reader): for the shard job
`start_number = 2, end_number = 3` on a json object of three records,
`set_start_end_position` yields the window `(1, 3)` — per the half-open
contract the emitted records should be those at 0-based positions 1 and 2 —
but `extract_logobj_from_json` compares the window bounds against a 1-based
counter with `start <= count <= end` and emits all three records, one
earlier than position `start`.  (The sibling multiline extractor uses the
strict `start < count`.) -/
theorem claim_C1_json_window_bug :
    set_start_end_position false FileFormat.json 0 2 3 1 100 = (1, 3) ∧
    extract_logobj_from_json false 1 3
      [[RawEvent.noKey (10 : Nat)], [RawEvent.noKey 20],
       [RawEvent.noKey 30]] = [10, 20, 30] ∧
    extract_logobj_from_json false 1 3
      [[RawEvent.noKey (10 : Nat)], [RawEvent.noKey 20],
       [RawEvent.noKey 30]] ≠ [20, 30] := by
  refine ⟨rfl, rfl, by decide⟩

/-- Claim C4 (code divergence, multiline reader): with
`multiline_firstline` matching lines that start with `A`, lines
`A1 / A2 / x2` (where `x2` is a continuation line of the second record)
and the window `start = 0, end = 1`, the extractor emits `"A1\nx2"`:
the continuation line of the out-of-window record 2 is glued onto the
emitted record 1, because the `else: continue` branch never resets
`is_in_scope`.  The boundary contract requires the single emitted record
to be exactly `"A1"`. -/
theorem claim_C4_multiline_window_bug :
    extract_multiline_log (fun l => decide (l.head? = some ('A'))) 0 1
      [strOf ("A1\n"), strOf ("A2\n"), strOf ("x2\n")] =
      [strOf ("A1\nx2")] ∧
    extract_multiline_log (fun l => decide (l.head? = some ('A'))) 0 1
      [strOf ("A1\n"), strOf ("A2\n"), strOf ("x2\n")] ≠
      [strOf ("A1")] := by
  refine ⟨by decide, by decide⟩

/-- Claim C10 (amended): for a non-`via_cwl` invocation carrying a shard
range (`end_number ≠ 0`), `log_count` is `end_number - start_number`,
computed identically for any object contents (nothing is read), and the
`log_count == 0` ignore rule is not applied. -/
theorem claim_C10_shard_log_count (s e : Nat) (raw raw2 : RawContents)
    (he : e ≠ 0) :
    log_count false s e raw = (e - s, false) ∧
    log_count false s e raw = log_count false s e raw2 := by
  simp [log_count, he]

/-- Witness for C10: a shard invocation with
`end_number = start_number = 5` yields `log_count = 0` without being
marked ignored, for two different object contents. -/
theorem claim_C10_shard_log_count_witness :
    log_count false 5 5 ⟨[], 7⟩ = (0, false) ∧
    log_count false 5 5 ⟨[], 7⟩ = log_count false 5 5 ⟨[(true, 9)], 3⟩ :=
  claim_C10_shard_log_count 5 5 ⟨[], 7⟩ ⟨[(true, 9)], 3⟩ (by decide)

/-- Counterexample to C10 as stated: under `via_cwl` the
`deco_cwl_logcount` decorator replaces the computation even when a shard
range is present — with shard `(11, 20)` and an object holding one
`DATA_MESSAGE` envelope of 3 events, `log_count` is 3 (read from the
contents), not `20 - 11 = 9`. -/
theorem claim_C10_counterexample :
    log_count true 11 20 ⟨[(true, 3)], 0⟩ = (3, false) ∧
    (log_count true 11 20 ⟨[(true, 3)], 0⟩).1 ≠ 20 - 11 := by
  refine ⟨rfl, by decide⟩

/-- Every MD5 hex digest has 32 characters. -/
theorem md5hex_length (bs : List Nat) : (md5hex bs).length = 32 := by
  simp [md5hex, wordHexLE]

/-- Claim C5 (amended): the `@id` emitted by `add_basic_field` is the MD5
hex digest (32 hex characters) of `@message ++ s3key` when normalization
was skipped, the *raw value* of the configured `doc_id` field (not an MD5
of it) when `doc_id` is set, and the MD5 hex digest of `@message` when it
is not. -/
theorem claim_C5_doc_id_form (skip : Bool) (cfg : Str) (d : KVs)
    (message s3key : Str) :
    (skip = true →
      add_basic_field_id skip cfg d message s3key =
        some (.vstr (md5hex (utf8Bytes (message ++ s3key)))) ∧
      (md5hex (utf8Bytes (message ++ s3key))).length = 32) ∧
    (skip = false → cfg ≠ [] →
      add_basic_field_id skip cfg d message s3key = lookupKV d cfg) ∧
    (skip = false → cfg = [] →
      add_basic_field_id skip cfg d message s3key =
        some (.vstr (md5hex (utf8Bytes message))) ∧
      (md5hex (utf8Bytes message)).length = 32) := by
  refine ⟨?_, ?_, ?_⟩
  · intro hs
    subst hs
    exact ⟨rfl, md5hex_length _⟩
  · intro hs hcfg
    subst hs
    simp [add_basic_field_id, hcfg]
  · intro hs hcfg
    subst hs
    subst hcfg
    exact ⟨rfl, md5hex_length _⟩

/-- Witness for C5: with `doc_id = 'f'` configured, the emitted id is the
raw field value. -/
theorem claim_C5_doc_id_form_witness :
    add_basic_field_id false (strOf ("f")) [(strOf ("f"), PVal.vint 5)]
      (strOf ("m")) (strOf ("k")) =
      lookupKV [(strOf ("f"), PVal.vint 5)] (strOf ("f")) :=
  (claim_C5_doc_id_form false (strOf ("f")) [(strOf ("f"), PVal.vint 5)]
    (strOf ("m")) (strOf ("k"))).2.1 rfl (by decide)

/-- Counterexample to C5 as stated: with `doc_id = 'fieldx'` configured
and the record field value `'abc'`, the emitted `@id` is `'abc'` itself —
not the MD5 hex digest of the field (every MD5 hex digest has 32
characters, and `'abc'` has 3). -/
theorem claim_C5_counterexample :
    add_basic_field_id false (strOf ("fieldx"))
      [(strOf ("fieldx"), .vstr (strOf ("abc")))] (strOf ("m"))
      (strOf ("k")) = some (.vstr (strOf ("abc"))) ∧
    PVal.vstr (strOf ("abc")) ≠
      .vstr (md5hex (utf8Bytes (strOf ("abc")))) := by
  constructor
  · rfl
  · intro h
    injection h with h'
    have hlen := md5hex_length (utf8Bytes (strOf ("abc")))
    rw [← h'] at hlen
    exact absurd hlen (by decide)

/-- Claim C7 (amended): for a FireLens record with `file_format = json`
whose inner `log` is not valid JSON, the extractor sets
`__skip_normalization`, yields the raw string (the record is not
dropped), and sets `__error_message = 'Invalid file format found during
parsing'` only when the record already carried an error message (i.e. for
stderr records not ignored); for other records no error message is
attached.  Processing continues: each line in the window produces exactly
one yielded pair. -/
theorem claim_C7_firelens_json_error (ign : Bool)
    (tryParse : Str → Option PVal) (obj : FirelensObj)
    (hfail : tryParse obj.log = none) :
    (extract_firelens_record ign true tryParse obj).2.skip_normalization
        = true ∧
    (extract_firelens_record ign true tryParse obj).2.error_message =
      (if obj.source = some (strOf ("stderr")) ∧ ign = false then
        some (strOf ("Invalid file format found during parsing"))
       else none) ∧
    (extract_firelens_record ign true tryParse obj).1 =
      FlPayload.raw obj.log ∧
    (∀ (s e : Nat) (objs : List FirelensObj),
      (extract_firelens_log ign true tryParse s e objs).length =
        (pySlice s e objs).length) := by
  refine ⟨?_, ?_, ?_, ?_⟩
  · by_cases hs : obj.source = some (strOf ("stderr")) <;>
      cases ign <;> simp [extract_firelens_record, hs, hfail]
  · by_cases hs : obj.source = some (strOf ("stderr")) <;>
      cases ign <;> simp [extract_firelens_record, hs, hfail]
  · by_cases hs : obj.source = some (strOf ("stderr")) <;>
      cases ign <;> simp [extract_firelens_record, hs, hfail]
  · intro s e objs
    simp [extract_firelens_log]

/-- Witness for C7 at a concrete stdout record with unparseable inner
JSON: normalization is skipped and no error message is attached. -/
theorem claim_C7_firelens_json_error_witness :
    (extract_firelens_record false true (fun _ => none)
      ⟨none, none, some (strOf ("stdout")), none, none, none, none,
       strOf ("notjson")⟩).2.skip_normalization = true :=
  (claim_C7_firelens_json_error false (fun _ => none)
    ⟨none, none, some (strOf ("stdout")), none, none, none, none,
     strOf ("notjson")⟩ rfl).1

/-- Counterexample to C7 as stated: for a *stdout* FireLens record with
`file_format = json` and an unparseable `log`, the code sets
`__skip_normalization` but attaches no `__error_message` (the assignment
is guarded by `if '__error_message' in firelens_meta_dict`), contradicting
the claimed unconditional attachment. -/
theorem claim_C7_counterexample :
    (extract_firelens_record false true (fun _ => none)
      ⟨none, none, some (strOf ("stdout")), none, none, none, none,
       strOf ("notjson")⟩).2.skip_normalization = true ∧
    (extract_firelens_record false true (fun _ => none)
      ⟨none, none, some (strOf ("stdout")), none, none, none, none,
       strOf ("notjson")⟩).2.error_message = none := by
  refine ⟨rfl, rfl⟩

end Siem

namespace Siem

/-- A leaf match among the remaining patterns is a leaf match among all of
them. -/
theorem LeafMatches_cons {log : KVs} {hd : Str × ExPat}
    {rest : List (Str × ExPat)} (h : LeafMatches log rest) :
    LeafMatches log (hd :: rest) := by
  cases h with
  | here hmem hlook hnl hm =>
    exact .here (List.mem_cons_of_mem hd hmem) hlook hnl hm
  | deeper hmem hlook hrec =>
    exact .deeper (List.mem_cons_of_mem hd hmem) hlook hrec

theorem match_exclude_sound :
    ∀ (log : KVs) (pats : List (Str × ExPat)),
      match_log_with_exclude_patterns log pats = true →
      LeafMatches log pats := by
  intro log pats
  induction log, pats using match_log_with_exclude_patterns.induct with
  | case1 log => intro h; simp [match_log_with_exclude_patterns] at h
  | case2 log k pat rest hlook ih =>
    intro h
    simp only [match_log_with_exclude_patterns, hlook] at h
    exact LeafMatches_cons (ih h)
  | case3 log k rest ps ld hlook ih =>
    intro h
    simp only [match_log_with_exclude_patterns, hlook] at h
    exact .deeper (List.mem_cons_self _ _) hlook (ih h)
  | case4 log k rest m xs hlook ih =>
    intro h
    simp only [match_log_with_exclude_patterns, hlook] at h
    exact LeafMatches_cons (ih h)
  | case5 log k rest m v hnl hm hlook =>
    intro _h
    exact .here (List.mem_cons_self _ _) hlook (fun xs => hnl xs) hm
  | case6 log k rest m v hnl hm hlook ih =>
    intro h
    simp only [match_log_with_exclude_patterns, hlook] at h
    rw [if_neg hm] at h
    exact LeafMatches_cons (ih h)
  | case7 log k rest v hlook kvs hnd ih =>
    intro h
    simp only [match_log_with_exclude_patterns, hlook] at h
    exact LeafMatches_cons (ih h)

end Siem

namespace Siem

theorem match_exclude_complete_nocut :
    ∀ (log : KVs) (l1 : List (Str × ExPat)) (k : Str) (m : Str → Bool)
      (l2 : List (Str × ExPat)) (s : Str),
      lookupKV log k = some (.vstr s) → m s = true →
      (∀ k' ps', (k', ExPat.node ps') ∈ l1 →
        ∀ ld, lookupKV log k' ≠ some (.vdict ld)) →
      match_log_with_exclude_patterns log
        (l1 ++ (k, ExPat.leaf m) :: l2) = true := by
  intro log l1
  induction l1 with
  | nil =>
    intro k m l2 s hk hm _
    simp only [List.nil_append, match_log_with_exclude_patterns, hk]
    rw [if_pos (by simpa [pyStr] using hm)]
  | cons hd l1' ih =>
    intro k m l2 s hk hm hcut
    obtain ⟨k', p'⟩ := hd
    have hcut' : ∀ k'' ps'', (k'', ExPat.node ps'') ∈ l1' →
        ∀ ld, lookupKV log k'' ≠ some (.vdict ld) := by
      intro k'' ps'' hmem ld
      exact hcut k'' ps'' (List.mem_cons_of_mem _ hmem) ld
    rw [List.cons_append]
    cases hl : lookupKV log k' with
    | none =>
      simp only [match_log_with_exclude_patterns, hl]
      exact ih k m l2 s hk hm hcut'
    | some v =>
      cases p' with
      | leaf m' =>
        cases v with
        | vlist xs =>
          simp only [match_log_with_exclude_patterns, hl]
          exact ih k m l2 s hk hm hcut'
        | vstr t =>
          simp only [match_log_with_exclude_patterns, hl]
          by_cases hm' : m' (pyStr (PVal.vstr t)) = true
          · rw [if_pos hm']
          · rw [if_neg hm']
            exact ih k m l2 s hk hm hcut'
        | vint n =>
          simp only [match_log_with_exclude_patterns, hl]
          by_cases hm' : m' (pyStr (PVal.vint n)) = true
          · rw [if_pos hm']
          · rw [if_neg hm']
            exact ih k m l2 s hk hm hcut'
        | vnull =>
          simp only [match_log_with_exclude_patterns, hl]
          by_cases hm' : m' (pyStr PVal.vnull) = true
          · rw [if_pos hm']
          · rw [if_neg hm']
            exact ih k m l2 s hk hm hcut'
        | vdict ld =>
          simp only [match_log_with_exclude_patterns, hl]
          by_cases hm' : m' (pyStr (PVal.vdict ld)) = true
          · rw [if_pos hm']
          · rw [if_neg hm']
            exact ih k m l2 s hk hm hcut'
      | node ps =>
        cases v with
        | vdict ld =>
          exact absurd hl (hcut k' ps (List.mem_cons_self _ _) ld)
        | vstr t =>
          simp only [match_log_with_exclude_patterns, hl]
          exact ih k m l2 s hk hm hcut'
        | vint n =>
          simp only [match_log_with_exclude_patterns, hl]
          exact ih k m l2 s hk hm hcut'
        | vnull =>
          simp only [match_log_with_exclude_patterns, hl]
          exact ih k m l2 s hk hm hcut'
        | vlist xs =>
          simp only [match_log_with_exclude_patterns, hl]
          exact ih k m l2 s hk hm hcut'

/-- Claim C8 (amended): the exclusion matcher is sound — whenever it
returns true, some leaf regex reached by descending through keys present
on both sides matches the string form of a corresponding non-list value —
and it is complete only up to the nested-branch cutoff: a matching
top-level leaf is found provided no earlier pattern entry recurses into a
nested map (the code returns the recursive result of the first
dict-pattern/dict-value entry immediately, so later siblings of a failed
nested branch are never consulted). -/
theorem claim_C8_exclude_matching :
    (∀ (log : KVs) (pats : List (Str × ExPat)),
      match_log_with_exclude_patterns log pats = true →
      LeafMatches log pats) ∧
    (∀ (log : KVs) (l1 : List (Str × ExPat)) (k : Str) (m : Str → Bool)
      (l2 : List (Str × ExPat)) (s : Str),
      lookupKV log k = some (.vstr s) → m s = true →
      (∀ k' ps', (k', ExPat.node ps') ∈ l1 →
        ∀ ld, lookupKV log k' ≠ some (.vdict ld)) →
      match_log_with_exclude_patterns log
        (l1 ++ (k, ExPat.leaf m) :: l2) = true) :=
  ⟨match_exclude_sound, match_exclude_complete_nocut⟩

/-- Witness for C8: soundness applied to a concrete one-leaf match, and
completeness applied with an empty prefix. -/
theorem claim_C8_exclude_matching_witness :
    LeafMatches [(strOf ("a"), PVal.vstr (strOf ("1")))]
      [(strOf ("a"), ExPat.leaf (fun s => s == strOf ("1")))] ∧
    match_log_with_exclude_patterns
      [(strOf ("a"), PVal.vstr (strOf ("1")))]
      ([] ++ (strOf ("a"), ExPat.leaf (fun s => s == strOf ("1"))) :: [])
      = true :=
  ⟨claim_C8_exclude_matching.1 _ _
     (by simp [match_log_with_exclude_patterns, lookupKV, strOf, pyStr]),
   claim_C8_exclude_matching.2 _ [] (strOf ("a"))
     (fun s => s == strOf ("1")) [] (strOf ("1")) rfl rfl
     (by intro k' ps' hmem; simp at hmem)⟩

/-- Counterexample to C8 as stated: patterns
`{'x': {'y': MISS}, 'a': BINGO}` against record
`{'x': {'y': '1'}, 'a': '111'}` — the leaf regex `BINGO` matches the
scalar `'111'` reached through the key `a` present in the record, so the
claimed iff requires `true`; but the code descends into the `'x'` branch
first and returns its (failed) result immediately, so the sibling pattern
`'a'` is never checked and the matcher returns false. -/
theorem claim_C8_counterexample :
    match_log_with_exclude_patterns
      [(strOf ("x"), PVal.vdict [(strOf ("y"), PVal.vstr (strOf ("1")))]),
       (strOf ("a"), PVal.vstr (strOf ("111")))]
      [(strOf ("x"), ExPat.node
          [(strOf ("y"), ExPat.leaf (fun _ => false))]),
       (strOf ("a"), ExPat.leaf (fun s => s == strOf ("111")))] = false ∧
    LeafMatches
      [(strOf ("x"), PVal.vdict [(strOf ("y"), PVal.vstr (strOf ("1")))]),
       (strOf ("a"), PVal.vstr (strOf ("111")))]
      [(strOf ("x"), ExPat.node
          [(strOf ("y"), ExPat.leaf (fun _ => false))]),
       (strOf ("a"), ExPat.leaf (fun s => s == strOf ("111")))] := by
  constructor
  · simp [match_log_with_exclude_patterns, lookupKV, strOf, pyStr]
  · exact .here (v := PVal.vstr (strOf ("111")))
      (List.mem_cons_of_mem _ (List.mem_cons_self _ _)) rfl
      (fun xs h => by simp at h) (by simp [pyStr])

end Siem

namespace Siem

/-!
### Association-list and `merge` lemmas (claim C9)
-/

theorem lookupKV_append (a b : KVs) (k : Str) :
    lookupKV (a ++ b) k =
      match lookupKV a k with
      | some v => some v
      | none => lookupKV b k := by
  induction a with
  | nil => simp [lookupKV]
  | cons hd rest ih =>
    obtain ⟨k', v'⟩ := hd
    by_cases h : k' = k
    · simp [lookupKV, h]
    · simp only [List.cons_append, lookupKV, if_neg h]
      exact ih

theorem lookupKV_updateKV_ne (a : KVs) (k' : Str) (v : PVal) (k : Str)
    (h : k' ≠ k) : lookupKV (updateKV a k' v) k = lookupKV a k := by
  induction a with
  | nil => rfl
  | cons hd rest ih =>
    obtain ⟨k'', v''⟩ := hd
    by_cases h2 : k'' = k'
    · subst h2
      simp [updateKV, lookupKV, h]
    · simp only [updateKV, if_neg h2, lookupKV]
      by_cases h3 : k'' = k
      · simp [h3]
      · simp only [if_neg h3]
        exact ih

theorem lookupKV_updateKV_self (a : KVs) (k : Str) (v av : PVal)
    (h : lookupKV a k = some av) :
    lookupKV (updateKV a k v) k = some v := by
  induction a with
  | nil => simp [lookupKV] at h
  | cons hd rest ih =>
    obtain ⟨k'', v''⟩ := hd
    by_cases h2 : k'' = k
    · simp [updateKV, lookupKV, h2]
    · simp only [updateKV, if_neg h2, lookupKV, if_neg h2]
      simp only [lookupKV, if_neg h2] at h
      exact ih h

theorem lookupKV_eq_none_of_not_mem (a : KVs) (k : Str)
    (h : k ∉ a.map Prod.fst) : lookupKV a k = none := by
  induction a with
  | nil => rfl
  | cons hd rest ih =>
    obtain ⟨k', v'⟩ := hd
    simp only [List.map_cons, List.mem_cons] at h
    push_neg at h
    simp only [lookupKV]
    rw [if_neg (show k' ≠ k from fun hc => h.1 hc.symm)]
    exact ih h.2

theorem lookup_merge_preserve (b : KVs) :
    ∀ (a : KVs) (k : Str), lookupKV b k = none →
      lookupKV (merge_dicts a b) k = lookupKV a k := by
  induction b with
  | nil => intro a k _; rfl
  | cons hd rest ih =>
    intro a k hb
    obtain ⟨k', bv'⟩ := hd
    simp only [lookupKV] at hb
    have hk : k' ≠ k := by
      intro hc
      rw [if_pos hc] at hb
      exact Option.noConfusion hb
    rw [if_neg hk] at hb
    rw [merge_dicts]
    cases hla : lookupKV a k' with
    | some av =>
      rw [ih _ k hb]
      exact lookupKV_updateKV_ne a k' (merge_val av bv') k hk
    | none =>
      rw [ih _ k hb, lookupKV_append]
      cases hlak : lookupKV a k with
      | some v => rfl
      | none => simp [lookupKV, hk]

theorem lookup_merge_found (b : KVs) :
    ∀ (a : KVs) (k : Str) (bv : PVal), lookupKV b k = some bv →
      (b.map Prod.fst).Nodup →
      lookupKV (merge_dicts a b) k =
        some (match lookupKV a k with
              | some av => merge_val av bv
              | none => bv) := by
  induction b with
  | nil => intro a k bv h _; simp [lookupKV] at h
  | cons hd rest ih =>
    intro a k bv hb hnd
    obtain ⟨k', bv'⟩ := hd
    simp only [List.map_cons, List.nodup_cons] at hnd
    simp only [lookupKV] at hb
    by_cases hk : k' = k
    · subst hk
      rw [if_pos rfl] at hb
      injection hb with hbv
      subst hbv
      have hrest : lookupKV rest k' = none :=
        lookupKV_eq_none_of_not_mem rest k' hnd.1
      rw [merge_dicts]
      cases hla : lookupKV a k' with
      | some av =>
        rw [lookup_merge_preserve rest _ k' hrest,
          lookupKV_updateKV_self a k' (merge_val av bv') av hla]
      | none =>
        rw [lookup_merge_preserve rest _ k' hrest, lookupKV_append, hla]
        simp [lookupKV]
    · rw [if_neg hk] at hb
      rw [merge_dicts]
      cases hla : lookupKV a k' with
      | some av =>
        rw [ih _ k bv hb hnd.2,
          lookupKV_updateKV_ne a k' (merge_val av bv') k hk]
      | none =>
        rw [ih _ k bv hb hnd.2, lookupKV_append]
        cases hlak : lookupKV a k with
        | some v => rfl
        | none => simp [lookupKV, hk]

theorem mk_basic_dict_no_suffix (message logtype ts ing : Str)
    (idv : PVal) (lg ls : Option Str) (b k : Str) :
    lookupKV (mk_basic_dict message logtype ts ing idv lg ls b k)
      (strOf ("__doc_id_suffix")) = none := by
  have h1 : strOf ("@message") ≠ strOf ("__doc_id_suffix") := by decide
  have h2 : strOf ("event") ≠ strOf ("__doc_id_suffix") := by decide
  have h3 : strOf ("@timestamp") ≠ strOf ("__doc_id_suffix") := by decide
  have h4 : strOf ("@log_type") ≠ strOf ("__doc_id_suffix") := by decide
  have h5 : strOf ("@id") ≠ strOf ("__doc_id_suffix") := by decide
  have h6 : strOf ("@log_group") ≠ strOf ("__doc_id_suffix") := by decide
  have h7 : strOf ("@log_stream") ≠ strOf ("__doc_id_suffix") := by decide
  have h8 : strOf ("@log_s3bucket") ≠ strOf ("__doc_id_suffix") := by
    decide
  have h9 : strOf ("@log_s3key") ≠ strOf ("__doc_id_suffix") := by decide
  cases lg <;>
    simp [mk_basic_dict, lookupKV, h1, h2, h3, h4, h5, h6, h7, h8, h9]

theorem mk_basic_dict_id (message logtype ts ing : Str)
    (idv : PVal) (lg ls : Option Str) (b k : Str) :
    lookupKV (mk_basic_dict message logtype ts ing idv lg ls b k)
      (strOf ("@id")) = some idv := by
  have h1 : strOf ("@message") ≠ strOf ("@id") := by decide
  have h2 : strOf ("event") ≠ strOf ("@id") := by decide
  have h3 : strOf ("@timestamp") ≠ strOf ("@id") := by decide
  have h4 : strOf ("@log_type") ≠ strOf ("@id") := by decide
  cases lg <;> simp [mk_basic_dict, lookupKV, h1, h2, h3, h4]

theorem mk_basic_dict_keys_nodup (message logtype ts ing : Str)
    (idv : PVal) (lg ls : Option Str) (b k : Str) :
    ((mk_basic_dict message logtype ts ing idv lg ls b k).map
      Prod.fst).Nodup := by
  cases lg <;>
    simp only [mk_basic_dict, List.map_append, List.map_cons,
      List.map_nil, List.cons_append, List.nil_append] <;>
    decide

/-- Claim C9 (amended): with `doc_id_suffix` not configured and no
script-injected `__doc_id_suffix` on the record, the document id computed
by a run does not depend on the run's wall clock: two runs over the same
record and configuration whose clocks read `now1` and `now2` produce the
same `doc_id`. -/
theorem claim_C9_doc_id_determinism (logdata_dict : KVs)
    (ff_json skip : Bool) (logdata : PVal) (doc_id_cfg logtype : Str)
    (ts_key_set : Bool) (ts_parsed : Str) (now1 now2 : Str)
    (loggroup logstream : Option Str) (s3bucket s3key : Str)
    (hnds : lookupKV logdata_dict (strOf ("__doc_id_suffix")) = none) :
    doc_id_of_run logdata_dict ff_json skip logdata doc_id_cfg [] logtype
      ts_key_set ts_parsed now1 loggroup logstream s3bucket s3key =
    doc_id_of_run logdata_dict ff_json skip logdata doc_id_cfg [] logtype
      ts_key_set ts_parsed now2 loggroup logstream s3bucket s3key := by
  dsimp only [doc_id_of_run]
  cases hid : add_basic_field_id skip doc_id_cfg logdata_dict
      (at_message ff_json logdata) s3key with
  | none => rfl
  | some idv =>
    have hsfx : ∀ now ts : Str, lookupKV (merge_dicts logdata_dict
        (mk_basic_dict (at_message ff_json logdata) logtype ts now idv
          loggroup logstream s3bucket s3key))
        (strOf ("__doc_id_suffix")) = none := by
      intro now ts
      rw [lookup_merge_preserve _ _ _
        (mk_basic_dict_no_suffix _ _ _ _ _ _ _ _ _), hnds]
    have hid' : ∀ now ts : Str, lookupKV (merge_dicts logdata_dict
        (mk_basic_dict (at_message ff_json logdata) logtype ts now idv
          loggroup logstream s3bucket s3key)) (strOf ("@id")) =
        some (match lookupKV logdata_dict (strOf ("@id")) with
              | some av => merge_val av idv
              | none => idv) :=
      fun now ts => lookup_merge_found _ _ _ _
        (mk_basic_dict_id _ _ _ _ _ _ _ _ _)
        (mk_basic_dict_keys_nodup _ _ _ _ _ _ _ _ _)
    simp only [logparser_doc_id, hsfx _ _, hid' _ _]
    simp

theorem merge_dicts_all_new (b : KVs) :
    ∀ (a : KVs), (∀ p ∈ b, lookupKV a p.1 = none) →
      (b.map Prod.fst).Nodup → merge_dicts a b = a ++ b := by
  induction b with
  | nil => intro a _ _; simp [merge_dicts]
  | cons hd rest ih =>
    intro a hnew hnd
    obtain ⟨k, bv⟩ := hd
    simp only [List.map_cons, List.nodup_cons] at hnd
    rw [merge_dicts, hnew (k, bv) (List.mem_cons_self _ _)]
    rw [ih (a ++ [(k, bv)]) ?_ hnd.2]
    · simp
    · intro p hp
      rw [lookupKV_append, hnew p (List.mem_cons_of_mem _ hp)]
      have hkp : k ≠ p.1 := by
        intro hc
        exact hnd.1 (hc ▸ (List.mem_map_of_mem Prod.fst hp))
      simp [lookupKV, hkp]

theorem mk_basic_dict_event (message logtype ts ing : Str)
    (idv : PVal) (lg ls : Option Str) (b k : Str) :
    lookupKV (mk_basic_dict message logtype ts ing idv lg ls b k)
      (strOf ("event")) =
      some (.vdict [(strOf ("module"), .vstr logtype),
                    (strOf ("ingested"), .vstr ing)]) := by
  have h1 : strOf ("@message") ≠ strOf ("event") := by decide
  cases lg <;> simp [mk_basic_dict, lookupKV, h1]

/-- Witness for C9 at a concrete record with `doc_id_suffix` unset: clocks
`T1` and `T2` produce the same doc id. -/
theorem claim_C9_doc_id_determinism_witness :
    doc_id_of_run [] false false PVal.vnull [] [] (strOf ("lt")) false []
      (strOf ("T1")) none none (strOf ("b")) (strOf ("k")) =
    doc_id_of_run [] false false PVal.vnull [] [] (strOf ("lt")) false []
      (strOf ("T2")) none none (strOf ("b")) (strOf ("k")) :=
  claim_C9_doc_id_determinism [] false false PVal.vnull [] (strOf ("lt"))
    false [] (strOf ("T1")) (strOf ("T2")) none none (strOf ("b"))
    (strOf ("k")) rfl

theorem doc_id_of_run_ingested_suffix (now : Str) (hne : now ≠ []) :
    doc_id_of_run [] false false PVal.vnull []
      (strOf ("event.ingested")) (strOf ("lt")) false [] now none none
      (strOf ("b")) (strOf ("k")) =
      some (.vstr (md5hex (utf8Bytes (strOf ("None"))) ++ '_' :: now)) := by
  have hmsg : at_message false PVal.vnull = strOf ("None") := by
    simp [at_message, pyStr]
  have hid : add_basic_field_id false [] []
      (at_message false PVal.vnull) (strOf ("k")) =
      some (.vstr (md5hex (utf8Bytes (strOf ("None"))))) := by
    rw [hmsg]
    rfl
  have hmerge := merge_dicts_all_new
    (mk_basic_dict (at_message false PVal.vnull) (strOf ("lt")) now now
      (.vstr (md5hex (utf8Bytes (strOf ("None"))))) none none
      (strOf ("b")) (strOf ("k"))) [] (fun p _ => rfl)
    (mk_basic_dict_keys_nodup _ _ _ _ _ _ _ _ _)
  rw [List.nil_append] at hmerge
  have hsplit : (strOf ("event.ingested")).splitOn '.' =
      [strOf ("event"), strOf ("ingested")] := by decide
  have hni := eq_true (show strOf ("event.ingested") ≠ [] by decide)
  have hmi : strOf ("module") ≠ strOf ("ingested") := by decide
  have hemp : now.isEmpty = false := by
    cases now with
    | nil => exact absurd rfl hne
    | cons c cs => rfl
  have hts : (if (false = true ∧ ¬false = true) then ([] : Str) else now)
      = now := by simp
  have hlook_ing : lookupKV
      [(strOf ("module"), PVal.vstr (strOf ("lt"))),
       (strOf ("ingested"), PVal.vstr now)] (strOf ("ingested")) =
      some (PVal.vstr now) := by
    simp [lookupKV, hmi]
  have hdesc : value_from_nesteddict_by_dottedkey
      (mk_basic_dict (at_message false PVal.vnull) (strOf ("lt")) now now
        (.vstr (md5hex (utf8Bytes (strOf ("None"))))) none none
        (strOf ("b")) (strOf ("k"))) (strOf ("event.ingested")) =
      some (PVal.vstr now) := by
    rw [value_from_nesteddict_by_dottedkey, hsplit, dotted_descend,
      mk_basic_dict_event]
    dsimp only []
    rw [dotted_descend, hlook_ing]
    dsimp only []
    rw [dotted_descend]
    simp [truthy, hemp]
  dsimp only [doc_id_of_run]
  simp only [hts, hid, hmerge, logparser_doc_id, mk_basic_dict_no_suffix,
    hni, if_true, hdesc, mk_basic_dict_id, pyStr]

/-- Counterexample to C9 as stated: with `doc_id_suffix = 'event.ingested'`
configured (a byte-identical configuration for both runs), two runs whose
wall clocks read `T1` and `T2` emit different doc ids — the id computation
does depend on wall-clock time through the suffix lookup. -/
theorem claim_C9_counterexample :
    doc_id_of_run [] false false PVal.vnull [] (strOf ("event.ingested"))
      (strOf ("lt")) false [] (strOf ("T1")) none none (strOf ("b"))
      (strOf ("k")) ≠
    doc_id_of_run [] false false PVal.vnull [] (strOf ("event.ingested"))
      (strOf ("lt")) false [] (strOf ("T2")) none none (strOf ("b"))
      (strOf ("k")) := by
  rw [doc_id_of_run_ingested_suffix (strOf ("T1")) (by decide),
    doc_id_of_run_ingested_suffix (strOf ("T2")) (by decide)]
  intro h
  injection h with h1
  injection h1 with h2
  have h3 := List.append_cancel_left h2
  exact absurd h3 (by decide)

end Siem

namespace Siem

/-!
### Truncation lemmas (claim C6)
-/

theorem utf8Len_append (a b : Str) :
    utf8Len (a ++ b) = utf8Len a + utf8Len b := by
  simp [utf8Len]

theorem charLen_pos (c : Char) : 1 ≤ charLen c := by
  unfold charLen
  split <;> [skip; split <;> [skip; split]] <;> omega

theorem utf8PrefixTake_le (s : Str) :
    ∀ num : Nat, utf8Len (utf8PrefixTake s num) ≤ num := by
  induction s with
  | nil => intro num; simp [utf8PrefixTake, utf8Len]
  | cons c cs ih =>
    intro num
    rw [utf8PrefixTake]
    by_cases h : charLen c ≤ num
    · rw [if_pos h]
      have := ih (num - charLen c)
      simp only [utf8Len, List.map_cons, List.sum_cons] at this ⊢
      omega
    · rw [if_neg h]
      simp [utf8Len]

theorem utf8PrefixTake_prefix (s : Str) :
    ∀ num : Nat, ∃ t, s = utf8PrefixTake s num ++ t := by
  induction s with
  | nil => intro num; exact ⟨[], rfl⟩
  | cons c cs ih =>
    intro num
    rw [utf8PrefixTake]
    by_cases h : charLen c ≤ num
    · rw [if_pos h]
      obtain ⟨t, ht⟩ := ih (num - charLen c)
      exact ⟨t, by rw [List.cons_append, ← ht]⟩
    · rw [if_neg h]
      exact ⟨c :: cs, rfl⟩

theorem truncate_txt_le (txt : Str) :
    ∀ num : Nat, utf8Len (truncate_txt txt num) ≤ num := by
  intro num
  induction num with
  | zero => exact utf8PrefixTake_le txt 0
  | succ n ih =>
    rw [truncate_txt]
    by_cases h : cutsCleanly txt (n + 1) = true
    · rw [if_pos h]
      exact utf8PrefixTake_le txt (n + 1)
    · rw [if_neg h]
      omega

theorem truncate_txt_prefix (txt : Str) :
    ∀ num : Nat, ∃ t, txt = truncate_txt txt num ++ t := by
  intro num
  induction num with
  | zero => exact utf8PrefixTake_prefix txt 0
  | succ n ih =>
    rw [truncate_txt]
    by_cases h : cutsCleanly txt (n + 1) = true
    · rw [if_pos h]
      exact utf8PrefixTake_prefix txt (n + 1)
    · rw [if_neg h]
      exact ih

theorem truncate_big_field_fieldsOK :
    ∀ kvs : KVs, ∀ p ∈ strFieldsKVs (truncate_big_field kvs),
      p.1 ≠ strOf ("@message") →
      p.2.length < 16383 ∨ utf8Len p.2 ≤ 32766 := by
  intro kvs
  induction kvs using truncate_big_field.induct with
  | case1 => intro p hp; simp [truncate_big_field, strFieldsKVs] at hp
  | case2 k dkvs rest ih1 ih2 =>
    intro p hp hmsg
    simp only [truncate_big_field, strFieldsKVs, List.mem_append] at hp
    rcases hp with hp | hp
    · exact ih1 p hp hmsg
    · exact ih2 p hp hmsg
  | case3 s rest hbig ih =>
    intro p hp hmsg
    simp only [truncate_big_field, if_pos hbig, eq_self_iff_true,
      if_true, ite_true, strFieldsKVs, List.mem_cons] at hp
    rcases hp with rfl | hp
    · exact absurd rfl hmsg
    · exact ih p hp hmsg
  | case4 k s rest hbig hk ih =>
    intro p hp hmsg
    simp only [truncate_big_field, if_pos hbig, if_neg hk,
      strFieldsKVs, List.mem_cons] at hp
    rcases hp with rfl | hp
    · right
      show utf8Len (truncate_txt s 32753 ++ strOf ("<<TRUNCATED>>")) ≤ 32766
      have h1 := truncate_txt_le s 32753
      have h2 : utf8Len (strOf ("<<TRUNCATED>>")) = 13 := by decide
      rw [utf8Len_append]
      omega
    · exact ih p hp hmsg
  | case5 k s rest hsmall ih =>
    intro p hp hmsg
    simp only [truncate_big_field, if_neg hsmall, strFieldsKVs,
      List.mem_cons] at hp
    rcases hp with rfl | hp
    · show List.length s < 16383 ∨ utf8Len s ≤ 32766
      push_neg at hsmall
      by_cases hlen : s.length < 16383
      · exact Or.inl hlen
      · exact Or.inr (by have := hsmall (by omega); omega)
    · exact ih p hp hmsg
  | case6 k v rest hnd hns ih =>
    intro p hp hmsg
    have hstep : truncate_big_field ((k, v) :: rest) =
        (k, v) :: truncate_big_field rest := by
      cases v with
      | vdict kvs => exact absurd rfl (hnd kvs)
      | vstr s => exact absurd rfl (hns s)
      | vint n =>
        rw [truncate_big_field]
        · exact hnd
        · exact hns
      | vnull =>
        rw [truncate_big_field]
        · exact hnd
        · exact hns
      | vlist xs =>
        rw [truncate_big_field]
        · exact hnd
        · exact hns
    rw [hstep] at hp
    cases v with
    | vdict kvs => exact absurd rfl (hnd kvs)
    | vstr s => exact absurd rfl (hns s)
    | vint n =>
      simp only [strFieldsKVs] at hp
      exact ih p hp hmsg
    | vnull =>
      simp only [strFieldsKVs] at hp
      exact ih p hp hmsg
    | vlist xs =>
      simp only [strFieldsKVs] at hp
      exact ih p hp hmsg

/-- Claim C6 (amended): every emitted document is either serialized below
65536 characters, or every string field other than `@message` (reachable
through nested maps; values inside lists are not traversed by the
truncation) has fewer than 16383 characters or UTF-8 byte length at most
32766; and the truncation primitive cuts at most 32753 bytes on a valid
UTF-8 boundary (the result is a character-prefix of the original). -/
theorem claim_C6_truncation_bound (d : KVs) :
    ((logparser_json d).length < 65536 ∨
      (∀ p ∈ strFieldsKVs (emittedKVs d), p.1 ≠ strOf ("@message") →
        p.2.length < 16383 ∨ utf8Len p.2 ≤ 32766)) ∧
    (∀ s : Str, utf8Len (truncate_txt s 32753) ≤ 32753 ∧
      ∃ t, s = truncate_txt s 32753 ++ t) := by
  constructor
  · by_cases h : 65536 ≤ (dumpsVal (.vdict (delNoneKVs d))).length
    · right
      intro p hp hmsg
      have he : emittedKVs d = truncate_big_field (delNoneKVs d) := by
        unfold emittedKVs
        rw [if_pos h]
      rw [he] at hp
      exact truncate_big_field_fieldsOK (delNoneKVs d) p hp hmsg
    · left
      have he : emittedKVs d = delNoneKVs d := by
        unfold emittedKVs
        rw [if_neg h]
      rw [logparser_json, he]
      omega
  · intro s
    exact ⟨truncate_txt_le s 32753, truncate_txt_prefix s 32753⟩

/-- Witness for C6 on a small document (left disjunct) and on a concrete
string for the truncation facts. -/
theorem claim_C6_truncation_bound_witness :
    (((logparser_json [(strOf ("k"), PVal.vstr (strOf ("v")))]).length
        < 65536 ∨
      (∀ p ∈ strFieldsKVs
          (emittedKVs [(strOf ("k"), PVal.vstr (strOf ("v")))]),
        p.1 ≠ strOf ("@message") →
        p.2.length < 16383 ∨ utf8Len p.2 ≤ 32766))) ∧
    (utf8Len (truncate_txt (strOf ("abc")) 32753) ≤ 32753 ∧
      ∃ t, strOf ("abc") = truncate_txt (strOf ("abc")) 32753 ++ t) :=
  ⟨(claim_C6_truncation_bound [(strOf ("k"), PVal.vstr (strOf ("v")))]).1,
   (claim_C6_truncation_bound [(strOf ("k"),
      PVal.vstr (strOf ("v")))]).2 (strOf ("abc"))⟩

theorem escChar_a : escChar 'a' = ['a'] := by decide

theorem escStr_repl_a (n : Nat) :
    escStr (List.replicate n 'a') = List.replicate n 'a' := by
  induction n with
  | zero => rfl
  | succ m ih =>
    rw [List.replicate_succ]
    show escChar 'a' ++ escStr (List.replicate m 'a') =
      'a' :: List.replicate m 'a'
    rw [escChar_a, ih]
    rfl

theorem utf8Len_repl_a (n : Nat) :
    utf8Len (List.replicate n 'a') = n := by
  have h : charLen 'a' = 1 := by decide
  simp [utf8Len, List.map_replicate, h, List.sum_replicate]

theorem utf8PrefixTake_repl_a (num : Nat) :
    ∀ n : Nat, num ≤ n →
      utf8PrefixTake (List.replicate n 'a') num =
        List.replicate num 'a' := by
  induction num with
  | zero =>
    intro n _
    cases n with
    | zero => rfl
    | succ m =>
      rw [List.replicate_succ, utf8PrefixTake]
      rw [if_neg (by decide)]
      rfl
  | succ k ih =>
    intro n hn
    cases n with
    | zero => omega
    | succ m =>
      rw [List.replicate_succ, utf8PrefixTake]
      rw [if_pos (show charLen 'a' ≤ k + 1 by
        have hc : charLen 'a' = 1 := by decide
        omega)]
      have hc : charLen 'a' = 1 := by decide
      rw [hc, List.replicate_succ]
      congr 1
      have : k + 1 - 1 = k := by omega
      rw [this]
      exact ih m (by omega)

theorem truncate_txt_clean (txt : Str) (num : Nat)
    (h : cutsCleanly txt num = true) :
    truncate_txt txt num = utf8PrefixTake txt num := by
  cases num with
  | zero => rfl
  | succ n =>
    rw [truncate_txt, if_pos h]

theorem escStr_append (a b : Str) :
    escStr (a ++ b) = escStr a ++ escStr b := by
  simp [escStr]

theorem dumpsVal_vdict3_len (k1 k2 k3 s1 s2 s3 : Str) :
    (dumpsVal (.vdict
      [(k1, .vstr s1), (k2, .vstr s2), (k3, .vstr s3)])).length =
      24 + (escStr k1).length + (escStr s1).length + (escStr k2).length +
        (escStr s2).length + (escStr k3).length + (escStr s3).length := by
  simp [dumpsVal, dumpsKVs, List.length_append]
  omega

/-- Counterexample to C6 as stated: a document with three 40000-character
ASCII fields serializes to 120030 characters (≥ 65536), so every field is
truncated; each truncated field is exactly 32753 + 13 = 32766 UTF-8 bytes
— not *below* 32766 as claimed — and the re-serialized document still has
98328 ≥ 65536 characters, so both disjuncts of the claim fail. -/
theorem claim_C6_counterexample :
    65536 ≤ (logparser_json
      [(strOf ("f1"), PVal.vstr (List.replicate 40000 'a')),
       (strOf ("f2"), PVal.vstr (List.replicate 40000 'a')),
       (strOf ("f3"), PVal.vstr (List.replicate 40000 'a'))]).length ∧
    (strOf ("f1"),
      List.replicate 32753 'a' ++ strOf ("<<TRUNCATED>>")) ∈
      strFieldsKVs (emittedKVs
        [(strOf ("f1"), PVal.vstr (List.replicate 40000 'a')),
         (strOf ("f2"), PVal.vstr (List.replicate 40000 'a')),
         (strOf ("f3"), PVal.vstr (List.replicate 40000 'a'))]) ∧
    ¬(utf8Len (List.replicate 32753 'a' ++ strOf ("<<TRUNCATED>>"))
        < 32766) := by
  have hbad : badStr (List.replicate 40000 'a') = false := by decide
  have hdel : delNoneKVs
      [(strOf ("f1"), PVal.vstr (List.replicate 40000 'a')),
       (strOf ("f2"), PVal.vstr (List.replicate 40000 'a')),
       (strOf ("f3"), PVal.vstr (List.replicate 40000 'a'))] =
      [(strOf ("f1"), PVal.vstr (List.replicate 40000 'a')),
       (strOf ("f2"), PVal.vstr (List.replicate 40000 'a')),
       (strOf ("f3"), PVal.vstr (List.replicate 40000 'a'))] := by
    simp only [delNoneKVs, hbad, Bool.false_eq_true, if_false, ite_false]
  have hek1 : escStr (strOf ("f1")) = strOf ("f1") := by decide
  have hek2 : escStr (strOf ("f2")) = strOf ("f2") := by decide
  have hek3 : escStr (strOf ("f3")) = strOf ("f3") := by decide
  have hlen1 : (dumpsVal (.vdict
      [(strOf ("f1"), PVal.vstr (List.replicate 40000 'a')),
       (strOf ("f2"), PVal.vstr (List.replicate 40000 'a')),
       (strOf ("f3"), PVal.vstr (List.replicate 40000 'a'))])).length =
      120030 := by
    rw [dumpsVal_vdict3_len, hek1, hek2, hek3, escStr_repl_a]
    have hkl1 : (strOf ("f1")).length = 2 := by decide
    have hkl2 : (strOf ("f2")).length = 2 := by decide
    have hkl3 : (strOf ("f3")).length = 2 := by decide
    rw [hkl1, hkl2, hkl3, List.length_replicate]
  have hbig40 : 16383 ≤ (List.replicate 40000 'a').length ∧
      32766 ≤ utf8Len (List.replicate 40000 'a') := by
    rw [utf8Len_repl_a, List.length_replicate]
    omega
  have hcuts : cutsCleanly (List.replicate 40000 'a') 32753 = true := by
    unfold cutsCleanly
    rw [utf8PrefixTake_repl_a 32753 40000 (by omega), utf8Len_repl_a,
      utf8Len_repl_a]
    simp
  have htr : truncate_txt (List.replicate 40000 'a') 32753 =
      List.replicate 32753 'a' := by
    rw [truncate_txt_clean _ _ hcuts,
      utf8PrefixTake_repl_a 32753 40000 (by omega)]
  have hk1 : ¬(strOf ("f1") = strOf ("@message")) := by decide
  have hk2 : ¬(strOf ("f2") = strOf ("@message")) := by decide
  have hk3 : ¬(strOf ("f3") = strOf ("@message")) := by decide
  have htb : truncate_big_field
      [(strOf ("f1"), PVal.vstr (List.replicate 40000 'a')),
       (strOf ("f2"), PVal.vstr (List.replicate 40000 'a')),
       (strOf ("f3"), PVal.vstr (List.replicate 40000 'a'))] =
      [(strOf ("f1"), PVal.vstr
          (List.replicate 32753 'a' ++ strOf ("<<TRUNCATED>>"))),
       (strOf ("f2"), PVal.vstr
          (List.replicate 32753 'a' ++ strOf ("<<TRUNCATED>>"))),
       (strOf ("f3"), PVal.vstr
          (List.replicate 32753 'a' ++ strOf ("<<TRUNCATED>>")))] := by
    simp only [truncate_big_field, if_pos hbig40, if_neg hk1,
      if_neg hk2, if_neg hk3, htr]
  have hem : emittedKVs
      [(strOf ("f1"), PVal.vstr (List.replicate 40000 'a')),
       (strOf ("f2"), PVal.vstr (List.replicate 40000 'a')),
       (strOf ("f3"), PVal.vstr (List.replicate 40000 'a'))] =
      [(strOf ("f1"), PVal.vstr
          (List.replicate 32753 'a' ++ strOf ("<<TRUNCATED>>"))),
       (strOf ("f2"), PVal.vstr
          (List.replicate 32753 'a' ++ strOf ("<<TRUNCATED>>"))),
       (strOf ("f3"), PVal.vstr
          (List.replicate 32753 'a' ++ strOf ("<<TRUNCATED>>")))] := by
    simp only [emittedKVs]
    rw [hdel, hlen1, if_pos (by omega), htb]
  have hesctv : (escStr
      (List.replicate 32753 'a' ++ strOf ("<<TRUNCATED>>"))).length =
      32766 := by
    rw [escStr_append, escStr_repl_a, List.length_append,
      List.length_replicate]
    have : (escStr (strOf ("<<TRUNCATED>>"))).length = 13 := by decide
    omega
  have hutf : utf8Len
      (List.replicate 32753 'a' ++ strOf ("<<TRUNCATED>>")) = 32766 := by
    rw [utf8Len_append, utf8Len_repl_a]
    have : utf8Len (strOf ("<<TRUNCATED>>")) = 13 := by decide
    omega
  refine ⟨?_, ?_, ?_⟩
  · rw [logparser_json, hem, dumpsVal_vdict3_len, hek1, hek2, hek3,
      hesctv]
    have hkl1 : (strOf ("f1")).length = 2 := by decide
    have hkl2 : (strOf ("f2")).length = 2 := by decide
    have hkl3 : (strOf ("f3")).length = 2 := by decide
    rw [hkl1, hkl2, hkl3]
    omega
  · rw [hem]
    simp only [strFieldsKVs]
    exact List.mem_cons_self _ _
  · rw [hutf]
    omega

end Siem

namespace Siem

/-- `charLen` is the length of `encChar`: the byte-length function used by
the truncation lemmas agrees with the UTF-8 encoder used by MD5. -/
theorem encChar_length (c : Char) : (encChar c).length = charLen c := by
  unfold encChar charLen
  dsimp only
  split_ifs <;> rfl

/-- `utf8Len` is the length of `utf8Bytes`. -/
theorem utf8Bytes_length (s : Str) : (utf8Bytes s).length = utf8Len s := by
  induction s with
  | nil => rfl
  | cons c cs ih =>
    simp only [utf8Bytes, utf8Len, List.flatMap_cons, List.map_cons,
      List.sum_cons, List.length_append, encChar_length]
    simp only [utf8Bytes, utf8Len] at ih
    omega

end Siem
